import Mathlib

/-!
# Scene navigator of `src/app.js`

A shallow embedding of the scene engine of `src/app.js` (the closure of the
`DOMContentLoaded` listener): the variables `currentSceneIndex`, `isLocked`,
`touchStartY`, the class lists of the scenes, of the navigation dots and of
the body, and the callbacks the engine hands to `requestAnimationFrame` and
`setTimeout`. The typewriter, the theme toggle and the cursor glow share no
variable with the engine and have a state of their own each (`Typewriter`,
`Theme`, `Glow`).

Conventions.
* A thrown `TypeError` (reading `classList` of `undefined`) is `none`.
* The numbers an event carries (`deltaY`, `screenY`, `clientX`, `clientY`) are
  finite doubles (Web IDL `double`). They are modelled as rationals: every
  finite double is a rational, and `Math.abs`, `<` and `>` are exact on
  doubles. The two operations on doubles that are not exact are parameters
  where a claim depends on them: the subtraction of the touch listener
  (`onTouchendWith`) and the conversion of a number to a string (`fmt` of
  `updateCursorGlow`).
* A string is the list of its UTF-16 code units.
* `totalScenes` is `scenes.length`; the node list is static, so it is a
  function of the state rather than a field of its own.
* The clock `now` counts milliseconds; a timeout scheduled at `now` with delay
  `d` is due at `now + d` and can run at any later moment, never earlier.
-/

namespace App

/-- The classes of one `.scene` element that the engine reads or writes. -/
structure Scene where
  active : Bool
  prev : Bool
  justEntered : Bool
  deriving DecidableEq, Repr

/-- The callbacks the scene engine schedules. `target` is the position of the
scene element the closure captured (`targetScene`). -/
inductive Callback where
  /-- The closure `() => targetScene.classList.add('just-entered')` (app.js 77-79) -/
  | addJustEntered (target : Nat)
  /-- The closure `() => targetScene.classList.remove('just-entered')` (app.js 82-84) -/
  | removeJustEntered (target : Nat)
  /-- The closure `() => isLocked = false` (app.js 193) -/
  | unlock
  deriving DecidableEq, Repr

/-- The mutable state of the scene engine together with the pending callbacks. -/
structure State where
  /-- The class lists of `scenes = document.querySelectorAll('.scene')` -/
  scenes : List Scene
  /-- The `active` class of each element of `dots` -/
  dots : List Bool
  /-- The `scene-strong` class of the body -/
  sceneStrong : Bool
  currentSceneIndex : Int
  isLocked : Bool
  touchStartY : ℚ
  /-- The callbacks passed to `requestAnimationFrame`, oldest first -/
  frames : List Callback
  /-- The callbacks passed to `setTimeout` with the time they are due, oldest first -/
  timers : List (Nat × Callback)
  /-- The clock, in milliseconds -/
  now : Nat
  deriving DecidableEq, Repr

/-- The constant `const SCROLL_COOLDOWN = 1000;` (app.js 11) -/
def SCROLL_COOLDOWN : Nat := 1000

/-- The constant `const totalScenes = scenes.length;` (app.js 12) -/
def totalScenes (s : State) : Int := (s.scenes.length : Int)

/-- The element `scenes[i]` for a JavaScript index `i`: `undefined` (here
`none`) when `i` is negative or not below the length. -/
def sceneAt (scenes : List Scene) (i : Int) : Option Scene :=
  if 0 ≤ i then scenes.get? i.toNat else none

/-- The function `updateScene` (app.js 61-102). The parameter `direction` is never
read by the body and is left out. -/
def updateScene (s : State) : Option State :=
  -- scenes.forEach(s => remove 'active', 'prev', 'just-entered')
  let cleared := s.scenes.map
    (fun sc => { sc with active := false, prev := false, justEntered := false })
  -- const targetScene = scenes[currentSceneIndex];
  match sceneAt cleared s.currentSceneIndex with
  | none => none  -- targetScene.classList throws
  | some targetScene =>
    let t := s.currentSceneIndex.toNat
    some { s with
      -- targetScene.classList.add('active')
      scenes := cleared.set t { targetScene with active := true }
      -- requestAnimationFrame(() => targetScene.classList.add('just-entered'))
      frames := s.frames ++ [Callback.addJustEntered t]
      -- setTimeout(() => targetScene.classList.remove('just-entered'), 800)
      timers := s.timers ++ [(s.now + 800, Callback.removeJustEntered t)]
      -- scene-strong iff currentSceneIndex === 0 || currentSceneIndex === totalScenes - 1
      sceneStrong := decide (s.currentSceneIndex = 0 ∨ s.currentSceneIndex = totalScenes s - 1)
      -- dots.forEach((d, i) => d.classList.toggle('active', i === currentSceneIndex))
      dots := (List.range s.dots.length).map
        (fun (i : Nat) => decide ((i : Int) = s.currentSceneIndex)) }

/-- The function `lockScroll` (app.js 191-194). -/
def lockScroll (s : State) : State :=
  { s with
    isLocked := true
    timers := s.timers ++ [(s.now + SCROLL_COOLDOWN, Callback.unlock)] }

/-- The function `jumpToScene` (app.js 169-173). -/
def jumpToScene (index : Int) (s : State) : Option State :=
  if index < 0 ∨ index ≥ totalScenes s then some s
  else updateScene { s with currentSceneIndex := index }

/-- The function `nextScene` (app.js 175-181). -/
def nextScene (s : State) : Option State :=
  if s.currentSceneIndex < totalScenes s - 1 then
    (updateScene { s with currentSceneIndex := s.currentSceneIndex + 1 }).map lockScroll
  else some s

/-- The function `prevScene` (app.js 183-189). -/
def prevScene (s : State) : Option State :=
  if s.currentSceneIndex > 0 then
    (updateScene { s with currentSceneIndex := s.currentSceneIndex - 1 }).map lockScroll
  else some s

/-- The `wheel` listener (app.js 199-208). -/
def onWheel (deltaY : ℚ) (s : State) : Option State :=
  if s.isLocked then some s
  else if |deltaY| < 20 then some s
  else if deltaY > 0 then nextScene s
  else prevScene s

/-- The codes of the `includes` test that guards `e.preventDefault()`
(app.js 212). -/
def preventDefaultCodes : List String :=
  ["ArrowUp", "ArrowDown", "PageUp", "PageDown", "Home", "End", " "]

/-- The codes that label a `case` of the `switch` (app.js 218-236). -/
def switchCodes : List String :=
  ["ArrowDown", "PageDown", "ArrowUp", "PageUp", "Home", "End", "Space"]

/-- The `keydown` listener (app.js 211-237) for an event with `e.code = code`.
The first component tells whether `e.preventDefault()` was called. -/
def onKeydown (code : String) (s : State) : Bool × Option State :=
  let prevented := preventDefaultCodes.contains code
  if s.isLocked then (prevented, some s)
  else if code = "ArrowDown" ∨ code = "PageDown" then (prevented, nextScene s)
  else if code = "ArrowUp" ∨ code = "PageUp" then (prevented, prevScene s)
  else if code = "Home" then (prevented, jumpToScene 0 s)
  else if code = "End" then (prevented, jumpToScene (totalScenes s - 1) s)
  else if code = "Space" then (prevented, nextScene s)
  else (prevented, some s)

/-- The `touchstart` listener (app.js 242-244). -/
def onTouchstart (screenY : ℚ) (s : State) : State :=
  { s with touchStartY := screenY }

/-- The `touchend` listener (app.js 246-259) for an event with
`e.changedTouches[0].screenY = screenY`. The subtraction of doubles in
`touchStartY - touchEndY` is `sub`: it rounds its result, so it is the exact
difference only when that is a double again. -/
def onTouchendWith (sub : ℚ → ℚ → ℚ) (screenY : ℚ) (s : State) : Option State :=
  if s.isLocked then some s
  else
    let diff := sub s.touchStartY screenY
    if |diff| > 50 then
      if diff > 0 then nextScene s else prevScene s
    else some s

/-- The `touchend` listener as `step` runs it: with the exact difference, which is
what the subtraction of doubles gives whenever the exact difference is a double
again. -/
def onTouchend (screenY : ℚ) (s : State) : Option State :=
  onTouchendWith (fun a b => a - b) screenY s

/-- The click listener of the dot created for scene `idx` (app.js 41). -/
def onDotClick (idx : Nat) (s : State) : Option State :=
  jumpToScene (idx : Int) s

/-- The click listener of `btn-start-exp` (app.js 263). -/
def onStartClick (s : State) : Option State :=
  jumpToScene 1 s

/-- Changes the `just-entered` class of the scene at position `t`. -/
def setJustEntered (t : Nat) (b : Bool) (scenes : List Scene) : List Scene :=
  scenes.modify (fun sc => { sc with justEntered := b }) t

/-- Runs the body of a scheduled callback. -/
def runCallback (c : Callback) (s : State) : State :=
  match c with
  | Callback.addJustEntered t => { s with scenes := setJustEntered t true s.scenes }
  | Callback.removeJustEntered t => { s with scenes := setJustEntered t false s.scenes }
  | Callback.unlock => { s with isLocked := false }

/-- The state in which the startup code calls `updateScene()` (app.js 282):
`scenes` as found in the document, one fresh dot per scene (app.js 36-45),
index 0, lock clear, nothing scheduled by the engine. -/
def startState (scenes : List Scene) (strong : Bool) : State :=
  { scenes := scenes
    dots := scenes.map (fun _ => false)
    sceneStrong := strong
    currentSceneIndex := 0
    isLocked := false
    touchStartY := 0
    frames := []
    timers := []
    now := 0 }

/-- The state after the startup code has run (`// Init state`, app.js 282). -/
def init (scenes : List Scene) (strong : Bool) : Option State :=
  updateScene (startState scenes strong)

/-- A direct call of one of the three navigation functions. -/
inductive NavCall where
  | jumpToScene (index : Int)
  | nextScene
  | prevScene
  deriving DecidableEq, Repr

/-- The effect of a direct call. -/
def NavCall.run (c : NavCall) (s : State) : Option State :=
  match c with
  | NavCall.jumpToScene i => App.jumpToScene i s
  | NavCall.nextScene => App.nextScene s
  | NavCall.prevScene => App.prevScene s

/-- The effect of a sequence of direct calls, first call first. -/
def runCalls : List NavCall → State → Option State
  | [], s => some s
  | c :: cs, s => (c.run s).bind (runCalls cs)

/-- What the event loop can deliver to the engine. -/
inductive Event where
  | wheel (deltaY : ℚ)
  | keydown (code : String)
  | touchstart (screenY : ℚ)
  | touchend (screenY : ℚ)
  | dotClick (idx : Nat)
  | startClick
  /-- An animation frame: every callback queued so far runs, oldest first -/
  | frame
  /-- The timeout at position `k` of the pending list runs; it must be due -/
  | timer (k : Nat)
  /-- Time passes: `ms` milliseconds -/
  | wait (ms : Nat)
  deriving DecidableEq, Repr

/-- One turn of the event loop. A `timer k` that names no pending timeout, or one
that is not yet due, does nothing. -/
def step (e : Event) (s : State) : Option State :=
  match e with
  | Event.wheel d => onWheel d s
  | Event.keydown code => (onKeydown code s).2
  | Event.touchstart y => some (onTouchstart y s)
  | Event.touchend y => onTouchend y s
  | Event.dotClick i => onDotClick i s
  | Event.startClick => onStartClick s
  | Event.frame => some (s.frames.foldl (fun st c => runCallback c st) { s with frames := [] })
  | Event.timer k =>
    match s.timers.get? k with
    | none => some s
    | some (due, c) =>
      if due ≤ s.now then some (runCallback c { s with timers := s.timers.eraseIdx k })
      else some s
  | Event.wait ms => some { s with now := s.now + ms }

/-- A sequence of turns of the event loop, first event first. -/
def run : List Event → State → Option State
  | [], s => some s
  | e :: es, s => (step e s).bind (run es)

/-! ## Vocabulary of the statements -/

/-- The state `updateScene` produces when `scenes[currentSceneIndex]` is defined
(see `updateScene_inRange`). -/
def updated (s : State) : State :=
  { s with
    scenes := (s.scenes.map (fun _ => Scene.mk false false false)).set
      s.currentSceneIndex.toNat (Scene.mk true false false)
    frames := s.frames ++ [Callback.addJustEntered s.currentSceneIndex.toNat]
    timers := s.timers ++ [(s.now + 800, Callback.removeJustEntered s.currentSceneIndex.toNat)]
    sceneStrong := decide (s.currentSceneIndex = 0 ∨ s.currentSceneIndex = totalScenes s - 1)
    dots := (List.range s.dots.length).map
      (fun (i : Nat) => decide ((i : Int) = s.currentSceneIndex)) }

/-- The index names a scene: `0 ≤ currentSceneIndex < totalScenes`. -/
def InRange (s : State) : Prop :=
  0 ≤ s.currentSceneIndex ∧ s.currentSceneIndex < totalScenes s

/-- The positions of the scenes that carry the class `active`. -/
def activeScenes (s : State) : List Nat :=
  (List.range s.scenes.length).filter
    (fun k => (s.scenes.get? k).map Scene.active = some true)

/-- The positions of the dots that carry the class `active`. -/
def activeDots (s : State) : List Nat :=
  (List.range s.dots.length).filter (fun k => s.dots.get? k = some true)

/-- Whether the guard of a direct call lets it through to `updateScene`. -/
def NavCall.succeeds (c : NavCall) (s : State) : Bool :=
  match c with
  | NavCall.jumpToScene i => decide (¬ (i < 0 ∨ i ≥ totalScenes s))
  | NavCall.nextScene => decide (s.currentSceneIndex < totalScenes s - 1)
  | NavCall.prevScene => decide (s.currentSceneIndex > 0)

/-- The due times of the pending cooldown timeouts (`() => isLocked = false`). -/
def pendingUnlocks (s : State) : List Nat :=
  (s.timers.filter (fun p => p.2 = Callback.unlock)).map Prod.fst

/-- Whether delivering `e` in state `s` runs a cooldown timeout. -/
def firesUnlock (s : State) (e : Event) : Bool :=
  match e with
  | Event.timer k =>
    match s.timers.get? k with
    | some (due, Callback.unlock) => decide (due ≤ s.now)
    | _ => false
  | _ => false

/-- No event of the trace, delivered from `s` on, runs a cooldown timeout. -/
def noUnlockFired : State → List Event → Bool
  | _, [] => true
  | s, e :: es =>
    !firesUnlock s e &&
      (match step e s with
       | some s' => noUnlockFired s' es
       | none => true)

/-- The wheel, keyboard advance/retreat and touch inputs. -/
def isGestureInput : Event → Bool
  | Event.wheel _ => true
  | Event.keydown code =>
    ["ArrowDown", "PageDown", "Space", "ArrowUp", "PageUp"].contains code
  | Event.touchstart _ => true
  | Event.touchend _ => true
  | _ => false

/-- The inputs that ask for an advance in state `s`: a wheel delta of at least 20,
one of the keys ArrowDown, PageDown, Space, or a touch end more than 50 above
the touch start. -/
def requestsNext (s : State) : Event → Bool
  | Event.wheel d => decide (20 ≤ d)
  | Event.keydown code => ["ArrowDown", "PageDown", "Space"].contains code
  | Event.touchend y => decide (50 < s.touchStartY - y)
  | _ => false

/-- The inputs that ask for a retreat in state `s`: a wheel delta of at most -20,
one of the keys ArrowUp, PageUp, or a touch end more than 50 below the touch
start. -/
def requestsPrev (s : State) : Event → Bool
  | Event.wheel d => decide (d ≤ -20)
  | Event.keydown code => ["ArrowUp", "PageUp"].contains code
  | Event.touchend y => decide (s.touchStartY - y < -50)
  | _ => false

/-- Five scenes without classes, for the worked examples. -/
def fiveScenes : List Scene := List.replicate 5 (Scene.mk false false false)

/-- The state after startup with five scenes. -/
def fiveStart : State := updated (startState fiveScenes false)

/-- The state reached from `fiveStart` by one ArrowDown: index 1, lock set. -/
def fiveLocked : State :=
  lockScroll (updated { fiveStart with currentSceneIndex := 1 })

/-- The invariant of the event loop: the index names a scene, no animation-frame
callback touches the lock, and a cooldown timeout is pending exactly while the
lock is set (one then, none otherwise). -/
def Inv (s : State) : Prop :=
  InRange s ∧ (∀ c ∈ s.frames, c ≠ Callback.unlock) ∧
  (pendingUnlocks s).length = if s.isLocked then 1 else 0

instance (s : State) : Decidable (InRange s) := by
  unfold InRange
  infer_instance

instance (s : State) : Decidable (Inv s) := by
  unfold Inv
  infer_instance

/-- States that differ at most in the classes of the scenes. -/
def SameCore (s s' : State) : Prop :=
  s'.currentSceneIndex = s.currentSceneIndex ∧ s'.isLocked = s.isLocked ∧
  s'.timers = s.timers ∧ s'.frames = s.frames ∧ s'.now = s.now ∧
  totalScenes s' = totalScenes s

/-- The positions of the scenes that carry the class `just-entered`. -/
def markedScenes (s : State) : List Nat :=
  (List.range s.scenes.length).filter
    (fun k => (s.scenes.get? k).map Scene.justEntered = some true)

/-- Every pending animation-frame callback was scheduled by the `updateScene` of
the current scene: it adds `just-entered` to the scene at `currentSceneIndex`. -/
def framesCurrent (s : State) : Bool :=
  s.frames.all (fun c => c == Callback.addJustEntered s.currentSceneIndex.toNat)

/-- Along the trace, from `s` on and up to its end, no animation-frame callback
of an earlier scene is pending. -/
def noStaleFrames : State → List Event → Bool
  | s, [] => framesCurrent s
  | s, e :: es =>
    framesCurrent s &&
      (match step e s with
       | some s' => noStaleFrames s' es
       | none => true)

/-! ## Typewriter (app.js 104-165) -/

/-- A JavaScript string: its UTF-16 code units. -/
abbrev JSString := List Nat

/-- The code units `String.prototype.trim` strips: white space and line
terminators. -/
def isTrimmed (c : Nat) : Bool :=
  c = 0x09 || c = 0x0A || c = 0x0B || c = 0x0C || c = 0x0D || c = 0x20 || c = 0xA0 ||
  c = 0x1680 || (0x2000 ≤ c && c ≤ 0x200A) || c = 0x2028 || c = 0x2029 || c = 0x202F ||
  c = 0x205F || c = 0x3000 || c = 0xFEFF

/-- The method `String.prototype.trim`. -/
def trim (t : JSString) : JSString :=
  ((t.dropWhile isTrimmed).reverse.dropWhile isTrimmed).reverse

/-- The call `text.substring(0, i)`: a negative end counts as 0, an end beyond the
length as the length. -/
def substring0 (text : JSString) (i : Int) : JSString :=
  text.take i.toNat

/-- The variables the closure `loop` works on (app.js 116-121). -/
structure LoopVars where
  text : JSString
  isDeleting : Bool
  charIndex : Int
  deriving DecidableEq, Repr

/-- The constant `typeSpeed` (app.js 124). -/
def typeSpeed : Nat := 50
/-- The constant `deleteSpeed` (app.js 125). -/
def deleteSpeed : Nat := 30
/-- The constant `pauseEnd` (app.js 126). -/
def pauseEnd : Nat := 2000
/-- The constant `pauseStart` (app.js 127). -/
def pauseStart : Nat := 800

/-- What one run of `loop` does while the element is in the document. -/
structure LoopResult where
  /-- The string written to `typeEl.textContent` -/
  shown : JSString
  /-- The delay passed to `setTimeout(loop, delta)` -/
  delta : Nat
  /-- The variables after the run -/
  vars : LoopVars
  deriving DecidableEq, Repr

/-- The body of `loop` (app.js 133-157), the element being in the document. -/
def loopBody (v : LoopVars) : LoopResult :=
  -- const currentString = text.substring(0, charIndex); typeEl.textContent = currentString;
  let currentString := substring0 v.text v.charIndex
  -- let delta = typeSpeed; if (isDeleting) { delta = deleteSpeed; charIndex--; } else { charIndex++; }
  let delta := if v.isDeleting then deleteSpeed else typeSpeed
  let charIndex := if v.isDeleting then v.charIndex - 1 else v.charIndex + 1
  if ¬ v.isDeleting ∧ charIndex = (v.text.length : Int) + 1 then
    -- Done typing: isDeleting = true; delta = pauseEnd; charIndex--;
    { shown := currentString, delta := pauseEnd,
      vars := { v with isDeleting := true, charIndex := charIndex - 1 } }
  else if v.isDeleting ∧ charIndex = 0 then
    -- Done deleting: isDeleting = false; delta = pauseStart;
    { shown := currentString, delta := pauseStart,
      vars := { v with isDeleting := false, charIndex := charIndex } }
  else
    { shown := currentString, delta := delta, vars := { v with charIndex := charIndex } }

/-- The typewriter element and the scheduled run of `loop`. -/
structure Typewriter where
  /-- The value of `typeEl.textContent` -/
  textContent : JSString
  /-- The class `no-cursor` of the body -/
  noCursor : Bool
  /-- The variables of `loop` and the delay of its pending `setTimeout`, when one
  is pending -/
  pending : Option (LoopVars × Nat)
  deriving DecidableEq, Repr

/-- The function `initTypewriter` (app.js 105-162). `typeEl` is the text content of
the element `hero-typewriter`, `none` when the document has no such element (the
function then returns at once and there is no typewriter). -/
def initTypewriter (typeEl : Option JSString) (prefersReducedMotion : Bool)
    (noCursor : Bool) : Option Typewriter :=
  match typeEl with
  | none => none
  | some content =>
    if prefersReducedMotion then
      -- document.body.classList.add('no-cursor'); return;
      some { textContent := content, noCursor := true, pending := none }
    else
      -- const text = typeEl.textContent.trim(); typeEl.textContent = '';
      -- setTimeout(loop, 500);
      some { textContent := [], noCursor := noCursor,
             pending := some ({ text := trim content, isDeleting := false, charIndex := 0 }, 500) }

/-- The pending timeout of `loop` runs, if there is one. `attached` tells whether
`document.body.contains(typeEl)` holds at that moment; when it does not, `loop`
returns without a new timeout. -/
def fireLoop (attached : Bool) (tw : Typewriter) : Typewriter :=
  match tw.pending with
  | none => tw
  | some (v, _) =>
    if attached then
      let r := loopBody v
      { tw with textContent := r.shown, pending := some (r.vars, r.delta) }
    else { tw with pending := none }

/-- The variables of `loop` when it starts on the trimmed text `text`. -/
def loopStart (text : JSString) : LoopVars :=
  { text := text, isDeleting := false, charIndex := 0 }

/-- The variables at the start of iteration `n` (counted from 0) of `loop`. -/
def loopVarsAt (text : JSString) : Nat → LoopVars
  | 0 => loopStart text
  | n + 1 => (loopBody (loopVarsAt text n)).vars

/-- The string iteration `n` writes. -/
def shownAt (text : JSString) (n : Nat) : JSString :=
  (loopBody (loopVarsAt text n)).shown

/-- The delay after which iteration `n` schedules the next one. -/
def deltaAt (text : JSString) (n : Nat) : Nat :=
  (loopBody (loopVarsAt text n)).delta

/-! ## Theme toggle (app.js 47-56) -/

/-- The attribute `data-theme` of the root element and the entry `theme` of
`localStorage`; `none` is a missing attribute or entry (`null`). -/
structure Theme where
  dataTheme : Option String
  stored : Option String
  deriving DecidableEq, Repr

/-- The startup code of the theme (app.js 48-49):
`localStorage.getItem('theme') || 'dark'`; the empty string is falsy. -/
def initTheme (stored : Option String) : Theme :=
  let savedTheme :=
    match stored with
    | none => "dark"
    | some v => if v = "" then "dark" else v
  { dataTheme := some savedTheme, stored := stored }

/-- The click listener of the theme button (app.js 51-56). -/
def onThemeClick (t : Theme) : Theme :=
  let newTheme := if t.dataTheme = some "dark" then "light" else "dark"
  { dataTheme := some newTheme, stored := some newTheme }

/-- The theme after startup and a number of clicks. -/
def themeAfter (stored : Option String) : Nat → Theme
  | 0 => initTheme stored
  | n + 1 => onThemeClick (themeAfter stored n)

/-! ## Cursor glow (app.js 14-33) -/

/-- The variables of the cursor glow, the custom properties it writes and the
number of `updateCursorGlow` callbacks waiting for the next animation frame. -/
structure Glow where
  mouseX : ℚ
  mouseY : ℚ
  rafPending : Bool
  /-- The number of queued `requestAnimationFrame(updateCursorGlow)` callbacks -/
  queued : Nat
  /-- The custom property `--mx` of the root style -/
  mx : Option String
  /-- The custom property `--my` of the root style -/
  my : Option String
  deriving DecidableEq, Repr

/-- The state at startup (app.js 15-16); nothing written, nothing queued. -/
def glowStart : Glow :=
  { mouseX := 0, mouseY := 0, rafPending := false, queued := 0, mx := none, my := none }

/-- The function `updateCursorGlow` (app.js 18-22). `fmt` is the conversion of a
number to a string that the template literals apply to `mouseX` and `mouseY`. -/
def updateCursorGlow (fmt : ℚ → String) (g : Glow) : Glow :=
  { g with
    mx := some (fmt g.mouseX ++ "px")
    my := some (fmt g.mouseY ++ "px")
    rafPending := false }

/-- The `mousemove` listener (app.js 25-32). -/
def onMousemove (clientX clientY : ℚ) (g : Glow) : Glow :=
  let g1 := { g with mouseX := clientX, mouseY := clientY }
  if ¬ g1.rafPending then { g1 with rafPending := true, queued := g1.queued + 1 }
  else g1

/-- What the event loop delivers to the cursor glow. -/
inductive GlowEvent where
  | mousemove (clientX clientY : ℚ)
  /-- An animation frame: the queued callbacks run -/
  | frame
  deriving DecidableEq, Repr

/-- One turn of the event loop; `hover` is `matchMedia('(hover: hover)').matches`,
without which the listener is not installed (app.js 24). -/
def glowStep (fmt : ℚ → String) (hover : Bool) (e : GlowEvent) (g : Glow) : Glow :=
  match e with
  | GlowEvent.mousemove x y => if hover then onMousemove x y g else g
  | GlowEvent.frame => (updateCursorGlow fmt)^[g.queued] { g with queued := 0 }

/-- A sequence of turns, first event first. -/
def glowRun (fmt : ℚ → String) (hover : Bool) : List GlowEvent → Glow → Glow
  | [], g => g
  | e :: es, g => glowRun fmt hover es (glowStep fmt hover e g)

/-- The coordinates of the last `mousemove` of a trace. -/
def lastMove : List GlowEvent → Option (ℚ × ℚ)
  | [] => none
  | e :: es =>
    match lastMove es with
    | some p => some p
    | none =>
      match e with
      | GlowEvent.mousemove x y => some (x, y)
      | GlowEvent.frame => none

/-- A conversion of a number to a string for the worked examples: the decimal
digits of a whole number. -/
def wholeDigits (q : ℚ) : String := toString q.num

/-- The invariant behind the `just-entered` marker: the index names a scene, no
timeout adds the marker, exactly the scene at the index is active, and a scene
that carries the marker is the scene at the index. -/
def MarkInv (s : State) : Prop :=
  InRange s ∧ (∀ p ∈ s.timers, ∀ t, p.2 ≠ Callback.addJustEntered t) ∧
  (∀ k sc, s.scenes[k]? = some sc → (sc.active = true ↔ k = s.currentSceneIndex.toNat)) ∧
  (∀ k sc, s.scenes[k]? = some sc → sc.justEntered = true → k = s.currentSceneIndex.toNat)

/-! ## The navigation functions -/

theorem updateScene_inRange (s : State) (h : InRange s) :
    updateScene s = some (updated s) := by
  obtain ⟨h0, h1⟩ := h
  have hlt : s.currentSceneIndex.toNat < s.scenes.length := by
    unfold totalScenes at h1; omega
  simp only [updateScene, sceneAt, h0, if_true, List.get?_eq_getElem?, List.getElem?_map,
    List.getElem?_eq_getElem hlt, Option.map_some', updated]

theorem updateScene_none (s : State) (h : ¬ InRange s) : updateScene s = none := by
  unfold InRange totalScenes at h
  unfold updateScene sceneAt
  by_cases h0 : 0 ≤ s.currentSceneIndex
  · have hge : s.scenes.length ≤ s.currentSceneIndex.toNat := by omega
    simp [h0, List.getElem?_eq_none, hge]
  · simp [h0]


theorem jumpToScene_inRange (i : Int) (s : State) (h0 : 0 ≤ i) (h1 : i < totalScenes s) :
    jumpToScene i s = some (updated { s with currentSceneIndex := i }) := by
  have hg : ¬ (i < 0 ∨ i ≥ totalScenes s) := by omega
  rw [jumpToScene, if_neg hg]
  exact updateScene_inRange _ ⟨h0, h1⟩

theorem jumpToScene_outOfRange (i : Int) (s : State) (h : i < 0 ∨ i ≥ totalScenes s) :
    jumpToScene i s = some s := by
  rw [jumpToScene, if_pos h]

theorem nextScene_move (s : State) (h0 : 0 ≤ s.currentSceneIndex)
    (h1 : s.currentSceneIndex < totalScenes s - 1) :
    nextScene s
      = some (lockScroll (updated { s with currentSceneIndex := s.currentSceneIndex + 1 })) := by
  rw [nextScene, if_pos h1, updateScene_inRange]
  · rfl
  · constructor
    · show 0 ≤ s.currentSceneIndex + 1
      omega
    · show s.currentSceneIndex + 1 < totalScenes s
      omega

theorem nextScene_stay (s : State) (h : ¬ s.currentSceneIndex < totalScenes s - 1) :
    nextScene s = some s := by
  rw [nextScene, if_neg h]

theorem prevScene_move (s : State) (h0 : 0 < s.currentSceneIndex)
    (h1 : s.currentSceneIndex < totalScenes s) :
    prevScene s
      = some (lockScroll (updated { s with currentSceneIndex := s.currentSceneIndex - 1 })) := by
  rw [prevScene, if_pos h0, updateScene_inRange]
  · rfl
  · constructor
    · show 0 ≤ s.currentSceneIndex - 1
      omega
    · show s.currentSceneIndex - 1 < totalScenes s
      omega

theorem prevScene_stay (s : State) (h : ¬ s.currentSceneIndex > 0) :
    prevScene s = some s := by
  rw [prevScene, if_neg h]

@[simp] theorem updated_index (s : State) :
    (updated s).currentSceneIndex = s.currentSceneIndex := rfl
@[simp] theorem updated_isLocked (s : State) : (updated s).isLocked = s.isLocked := rfl
@[simp] theorem updated_now (s : State) : (updated s).now = s.now := rfl
@[simp] theorem updated_touchStartY (s : State) : (updated s).touchStartY = s.touchStartY := rfl
@[simp] theorem updated_totalScenes (s : State) : totalScenes (updated s) = totalScenes s := by
  simp [updated, totalScenes]
@[simp] theorem updated_dots_length (s : State) : (updated s).dots.length = s.dots.length := by
  simp only [updated, List.length_map, List.length_range]
@[simp] theorem totalScenes_setIndex (s : State) (i : Int) :
    totalScenes { s with currentSceneIndex := i } = totalScenes s := rfl
@[simp] theorem lockScroll_index (s : State) :
    (lockScroll s).currentSceneIndex = s.currentSceneIndex := rfl
@[simp] theorem lockScroll_isLocked (s : State) : (lockScroll s).isLocked = true := rfl
@[simp] theorem lockScroll_now (s : State) : (lockScroll s).now = s.now := rfl
@[simp] theorem lockScroll_totalScenes (s : State) : totalScenes (lockScroll s) = totalScenes s := rfl
@[simp] theorem lockScroll_dots (s : State) : (lockScroll s).dots = s.dots := rfl
@[simp] theorem lockScroll_scenes (s : State) : (lockScroll s).scenes = s.scenes := rfl

/-- Every direct call made on a state whose index names a scene returns, and its
result again has an index that names a scene, of the same scene list length. -/
theorem NavCall.run_inRange (c : NavCall) (s : State) (h : InRange s) :
    ∃ s', c.run s = some s' ∧ InRange s' ∧ totalScenes s' = totalScenes s := by
  obtain ⟨h0, h1⟩ := h
  cases c with
  | jumpToScene i =>
    by_cases hg : i < 0 ∨ i ≥ totalScenes s
    · exact ⟨s, jumpToScene_outOfRange i s hg, ⟨h0, h1⟩, rfl⟩
    · have hi0 : 0 ≤ i := by omega
      have hi1 : i < totalScenes s := by omega
      refine ⟨_, jumpToScene_inRange i s hi0 hi1, ⟨?_, ?_⟩, ?_⟩ <;> simp <;> omega
  | nextScene =>
    by_cases hg : s.currentSceneIndex < totalScenes s - 1
    · refine ⟨_, nextScene_move s h0 hg, ⟨?_, ?_⟩, ?_⟩ <;> simp <;> omega
    · exact ⟨s, nextScene_stay s hg, ⟨h0, h1⟩, rfl⟩
  | prevScene =>
    by_cases hg : s.currentSceneIndex > 0
    · refine ⟨_, prevScene_move s hg h1, ⟨?_, ?_⟩, ?_⟩ <;> simp <;> omega
    · exact ⟨s, prevScene_stay s hg, ⟨h0, h1⟩, rfl⟩

theorem runCalls_inRange (cs : List NavCall) (s : State) (h : InRange s) :
    ∃ s', runCalls cs s = some s' ∧ InRange s' ∧ totalScenes s' = totalScenes s := by
  induction cs generalizing s with
  | nil => exact ⟨s, rfl, h, rfl⟩
  | cons c cs ih =>
    obtain ⟨s1, hs1, hin, hN⟩ := NavCall.run_inRange c s h
    obtain ⟨s2, hs2, hin2, hN2⟩ := ih s1 hin
    exact ⟨s2, by simp [runCalls, hs1, hs2], hin2, by rw [hN2, hN]⟩

theorem init_eq (scenes : List Scene) (strong : Bool) (h : scenes ≠ []) :
    init scenes strong = some (updated (startState scenes strong)) := by
  apply updateScene_inRange
  constructor
  · show (0 : Int) ≤ 0
    omega
  · show (0 : Int) < (scenes.length : Int)
    have := List.length_pos.mpr h
    omega


/-! ## Claims on the navigation functions -/

/-- C1: for every number of scenes N >= 1, from the initial state (index 0), every
finite sequence of direct calls of jumpToScene (any integer argument), nextScene
and prevScene returns and leaves an index with 0 <= index <= N-1, so that
scenes[currentSceneIndex] is a defined scene. -/
theorem index_in_range_after_calls (scenes : List Scene) (strong : Bool)
    (calls : List NavCall) (hN : 1 ≤ scenes.length) :
    ∃ s0 s, init scenes strong = some s0 ∧ s0.currentSceneIndex = 0 ∧
      runCalls calls s0 = some s ∧
      0 ≤ s.currentSceneIndex ∧ s.currentSceneIndex ≤ (scenes.length : Int) - 1 ∧
      s.scenes.length = scenes.length ∧
      (sceneAt s.scenes s.currentSceneIndex).isSome = true := by
  have hne : scenes ≠ [] := by
    intro h
    simp [h] at hN
  have hin0 : InRange (updated (startState scenes strong)) := by
    constructor
    · show (0 : Int) ≤ 0
      omega
    · rw [updated_totalScenes]
      show (0 : Int) < (scenes.length : Int)
      omega
  obtain ⟨s, hs, ⟨h0, h1⟩, hT⟩ := runCalls_inRange calls _ hin0
  rw [updated_totalScenes] at hT
  have hlen : s.scenes.length = scenes.length := by
    have : totalScenes (startState scenes strong) = (scenes.length : Int) := rfl
    rw [this] at hT
    unfold totalScenes at hT
    omega
  refine ⟨_, s, init_eq scenes strong hne, rfl, hs, h0, ?_, hlen, ?_⟩
  · unfold totalScenes at h1
    omega
  · unfold totalScenes at h1
    have hlt : s.currentSceneIndex.toNat < s.scenes.length := by omega
    simp [sceneAt, h0, List.getElem?_eq_getElem hlt]

/-- C1, worked example: five scenes, calls with arguments below 0 and above N-1. -/
theorem index_in_range_after_calls_witness :
    1 ≤ fiveScenes.length ∧
    ∃ s0 s, init fiveScenes false = some s0 ∧ s0.currentSceneIndex = 0 ∧
      runCalls [NavCall.jumpToScene 7, NavCall.nextScene, NavCall.jumpToScene (-1),
        NavCall.prevScene, NavCall.prevScene] s0 = some s ∧
      0 ≤ s.currentSceneIndex ∧ s.currentSceneIndex ≤ (fiveScenes.length : Int) - 1 ∧
      s.scenes.length = fiveScenes.length ∧
      (sceneAt s.scenes s.currentSceneIndex).isSome = true :=
  ⟨by decide, index_in_range_after_calls fiveScenes false _ (by decide)⟩


theorem filter_range_eq (n t : Nat) (p : Nat → Bool) (ht : t < n)
    (hp : ∀ k, k < n → (p k = true ↔ k = t)) :
    (List.range n).filter p = [t] := by
  induction n with
  | zero => omega
  | succ n ih =>
    rw [List.range_succ, List.filter_append]
    by_cases htn : t = n
    · subst htn
      have h1 : (List.range t).filter p = [] := by
        rw [List.filter_eq_nil_iff]
        intro k hk
        have hk' : k < t := List.mem_range.mp hk
        have := hp k (by omega)
        intro hpk
        have := this.mp hpk
        omega
      have h2 : p t = true := (hp t (by omega)).mpr rfl
      simp [h1, h2]
    · have h1 : (List.range n).filter p = [t] :=
        ih (by omega) (fun k hk => hp k (by omega))
      have h2 : p n = false := by
        cases hpn : p n with
        | false => rfl
        | true =>
          have := (hp n (by omega)).mp hpn
          omega
      simp [h1, h2]

/-- After `updateScene` on an index that names a scene, the scene at that position
is the only active one, and so is the dot when there is one dot per scene. -/
theorem updated_active (s : State) (h : InRange s) (hd : s.dots.length = s.scenes.length) :
    activeScenes (updated s) = [s.currentSceneIndex.toNat] ∧
    activeDots (updated s) = [s.currentSceneIndex.toNat] := by
  obtain ⟨h0, h1⟩ := h
  unfold totalScenes at h1
  have hlt : s.currentSceneIndex.toNat < s.scenes.length := by omega
  constructor
  · unfold activeScenes
    have hlen : (updated s).scenes.length = s.scenes.length := by simp [updated]
    rw [hlen]
    apply filter_range_eq _ _ _ hlt
    intro k hk
    simp only [updated, List.get?_eq_getElem?, List.getElem?_set, List.length_map,
      List.getElem?_map]
    by_cases hkt : s.currentSceneIndex.toNat = k
    · simp [hkt, hk]
    · simp [hkt, List.getElem?_eq_getElem hk]
      omega
  · unfold activeDots
    rw [updated_dots_length, hd]
    apply filter_range_eq _ _ _ hlt
    intro k hk
    have hk' : k < s.dots.length := by omega
    simp only [updated, List.get?_eq_getElem?, List.getElem?_map, List.getElem?_range hk',
      Option.map_some', Option.some.injEq, decide_eq_true_eq]
    omega

/-- C4: with N >= 1 scenes and one dot per scene, after the initial updateScene() and
after every successful jumpToScene, nextScene or prevScene (made on a state whose
index names a scene), the scenes carrying the class active are exactly the one
at currentSceneIndex, and so are the dots. -/
theorem exactly_one_active (scenes : List Scene) (strong : Bool) (hN : 1 ≤ scenes.length) :
    (∃ s0, init scenes strong = some s0 ∧ InRange s0 ∧
      activeScenes s0 = [s0.currentSceneIndex.toNat] ∧
      activeDots s0 = [s0.currentSceneIndex.toNat]) ∧
    (∀ (s : State) (c : NavCall), InRange s → s.dots.length = s.scenes.length →
      c.succeeds s = true →
      ∃ s', c.run s = some s' ∧ InRange s' ∧ s'.dots.length = s'.scenes.length ∧
        activeScenes s' = [s'.currentSceneIndex.toNat] ∧
        activeDots s' = [s'.currentSceneIndex.toNat]) := by
  constructor
  · have hne : scenes ≠ [] := by
      intro h
      simp [h] at hN
    have hin : InRange (startState scenes strong) := by
      constructor
      · show (0 : Int) ≤ 0
        omega
      · show (0 : Int) < (scenes.length : Int)
        omega
    have hd : (startState scenes strong).dots.length = (startState scenes strong).scenes.length := by
      simp [startState]
    refine ⟨_, init_eq scenes strong hne, ?_, updated_active _ hin hd⟩
    exact ⟨hin.1, by rw [updated_totalScenes]; exact hin.2⟩
  · intro s c hin hd hc
    obtain ⟨h0, h1⟩ := hin
    have key : ∀ i : Int, 0 ≤ i → i < totalScenes s →
        InRange (updated { s with currentSceneIndex := i }) ∧
        (updated { s with currentSceneIndex := i }).dots.length
          = (updated { s with currentSceneIndex := i }).scenes.length ∧
        activeScenes (updated { s with currentSceneIndex := i }) = [i.toNat] ∧
        activeDots (updated { s with currentSceneIndex := i }) = [i.toNat] := by
      intro i hi0 hi1
      have hin' : InRange { s with currentSceneIndex := i } := ⟨hi0, hi1⟩
      refine ⟨⟨hi0, by rw [updated_totalScenes]; exact hi1⟩, ?_, updated_active _ hin' hd⟩
      rw [updated_dots_length]
      simp [updated, hd]
    cases c with
    | jumpToScene i =>
      have hg : ¬ (i < 0 ∨ i ≥ totalScenes s) := by simpa [NavCall.succeeds] using hc
      have hi0 : 0 ≤ i := by omega
      have hi1 : i < totalScenes s := by omega
      exact ⟨_, jumpToScene_inRange i s hi0 hi1, key i hi0 hi1⟩
    | nextScene =>
      have hg : s.currentSceneIndex < totalScenes s - 1 := by simpa [NavCall.succeeds] using hc
      exact ⟨_, nextScene_move s h0 hg, key (s.currentSceneIndex + 1) (by omega) (by omega)⟩
    | prevScene =>
      have hg : s.currentSceneIndex > 0 := by simpa [NavCall.succeeds] using hc
      exact ⟨_, prevScene_move s hg h1, key (s.currentSceneIndex - 1) (by omega) (by omega)⟩

/-- C4, worked example: five scenes; the second part at the start state and nextScene. -/
theorem exactly_one_active_witness :
    1 ≤ fiveScenes.length ∧ InRange fiveStart ∧
    fiveStart.dots.length = fiveStart.scenes.length ∧
    NavCall.nextScene.succeeds fiveStart = true ∧
    ∃ s', NavCall.nextScene.run fiveStart = some s' ∧ InRange s' ∧
      s'.dots.length = s'.scenes.length ∧
      activeScenes s' = [s'.currentSceneIndex.toNat] ∧
      activeDots s' = [s'.currentSceneIndex.toNat] :=
  have hin : InRange fiveStart := ⟨by decide, by decide⟩
  ⟨by decide, hin, by decide, by decide,
    (exactly_one_active fiveScenes false (by decide)).2 fiveStart NavCall.nextScene hin
      (by decide) (by decide)⟩


/-- C5: for every integer i with i < 0 or i >= N, jumpToScene(i) returns the state it
was given: index, lock flag, scene and dot classes, the scene-strong flag and
the pending callbacks are all unchanged (updateScene did not run). -/
theorem jumpToScene_out_of_range_noop (s : State) (i : Int)
    (h : i < 0 ∨ i ≥ totalScenes s) :
    jumpToScene i s = some s :=
  jumpToScene_outOfRange i s h

/-- C5, worked example: index 5 and index -1 with five scenes. -/
theorem jumpToScene_out_of_range_noop_witness :
    ((5 : Int) < 0 ∨ (5 : Int) ≥ totalScenes fiveStart) ∧
    jumpToScene 5 fiveStart = some fiveStart :=
  ⟨by decide, jumpToScene_out_of_range_noop fiveStart 5 (by decide)⟩

/-- C6: nextScene() at index N-1 and prevScene() at index 0 return the state they
were given: the index is unchanged, nothing of updateScene happened and the
lock flag and the pending timeouts are as before (no cooldown started). -/
theorem next_prev_at_ends_noop (s : State) :
    (s.currentSceneIndex = totalScenes s - 1 → nextScene s = some s) ∧
    (s.currentSceneIndex = 0 → prevScene s = some s) := by
  constructor
  · intro h
    exact nextScene_stay s (by omega)
  · intro h
    exact prevScene_stay s (by omega)

/-- C6, worked example: prevScene at index 0 and nextScene at index 4 of five scenes. -/
theorem next_prev_at_ends_noop_witness :
    fiveStart.currentSceneIndex = 0 ∧ prevScene fiveStart = some fiveStart ∧
    ({ fiveStart with currentSceneIndex := 4 } : State).currentSceneIndex
      = totalScenes { fiveStart with currentSceneIndex := 4 } - 1 ∧
    nextScene { fiveStart with currentSceneIndex := 4 }
      = some { fiveStart with currentSceneIndex := 4 } :=
  ⟨rfl, (next_prev_at_ends_noop fiveStart).2 rfl, by decide,
    (next_prev_at_ends_noop { fiveStart with currentSceneIndex := 4 }).1 (by decide)⟩

theorem pendingUnlocks_append_remove (s : State) (d t : Nat) :
    pendingUnlocks { s with timers := s.timers ++ [(d, Callback.removeJustEntered t)] }
      = pendingUnlocks s := by
  simp [pendingUnlocks, List.filter_append]

@[simp] theorem pendingUnlocks_updated (s : State) :
    pendingUnlocks (updated s) = pendingUnlocks s := by
  simp [pendingUnlocks, updated, List.filter_append]

@[simp] theorem pendingUnlocks_setIndex (s : State) (i : Int) :
    pendingUnlocks { s with currentSceneIndex := i } = pendingUnlocks s := rfl

@[simp] theorem pendingUnlocks_lockScroll (s : State) :
    pendingUnlocks (lockScroll s) = pendingUnlocks s ++ [s.now + SCROLL_COOLDOWN] := by
  simp [pendingUnlocks, lockScroll, List.filter_append]

/-- C7: for every i with 0 <= i <= N-1 and both values of the lock flag,
jumpToScene(i) returns, sets the index to i, leaves the lock flag as it was,
schedules no cooldown timeout, and does the same whatever the lock flag is. -/
theorem jumpToScene_sets_index_keeps_lock (s : State) (i : Int)
    (h0 : 0 ≤ i) (h1 : i ≤ totalScenes s - 1) :
    ∃ s', jumpToScene i s = some s' ∧ s'.currentSceneIndex = i ∧
      s'.isLocked = s.isLocked ∧ pendingUnlocks s' = pendingUnlocks s ∧
      ∀ b : Bool, jumpToScene i { s with isLocked := b } = some { s' with isLocked := b } := by
  have hlt : i < totalScenes s := by omega
  refine ⟨_, jumpToScene_inRange i s h0 hlt, rfl, rfl, ?_, ?_⟩
  · simp
  · intro b
    exact jumpToScene_inRange i { s with isLocked := b } h0 hlt

/-- C7, worked example: jumpToScene(3) on five scenes while the lock is set. -/
theorem jumpToScene_sets_index_keeps_lock_witness :
    (0 : Int) ≤ 3 ∧ (3 : Int) ≤ totalScenes fiveLocked - 1 ∧ fiveLocked.isLocked = true ∧
    ∃ s', jumpToScene 3 fiveLocked = some s' ∧ s'.currentSceneIndex = 3 ∧
      s'.isLocked = fiveLocked.isLocked ∧ pendingUnlocks s' = pendingUnlocks fiveLocked ∧
      ∀ b : Bool, jumpToScene 3 { fiveLocked with isLocked := b }
        = some { s' with isLocked := b } :=
  ⟨by decide, by decide, rfl,
    jumpToScene_sets_index_keeps_lock fiveLocked 3 (by decide) (by decide)⟩

/-- C3, as stated, fails: with five scenes, index 0 and the lock clear, three direct
calls of nextScene() in a row all change the index, which ends at 3, not 1. -/
theorem three_nextScene_calls_reach_three :
    init fiveScenes false = some fiveStart ∧ fiveStart.currentSceneIndex = 0 ∧
    fiveStart.isLocked = false ∧
    ((runCalls [NavCall.nextScene, NavCall.nextScene, NavCall.nextScene] fiveStart).map
      (fun s => s.currentSceneIndex)) = some 3 ∧
    ((runCalls [NavCall.nextScene, NavCall.nextScene, NavCall.nextScene] fiveStart).map
      (fun s => s.currentSceneIndex)) ≠ some 1 := by
  decide

/-! ## The event loop -/

theorem SameCore.inv {s s' : State} (h : SameCore s s') (hi : Inv s) : Inv s' := by
  obtain ⟨h1, h2, h3, h4, h5, h6⟩ := h
  obtain ⟨⟨a, b⟩, c, d⟩ := hi
  refine ⟨⟨by rw [h1]; exact a, by rw [h1, h6]; exact b⟩, by rw [h4]; exact c, ?_⟩
  unfold pendingUnlocks at d ⊢
  rw [h3, h2]
  exact d

theorem runCallback_sameCore (c : Callback) (s : State) (hc : c ≠ Callback.unlock) :
    SameCore s (runCallback c s) := by
  cases c with
  | addJustEntered t =>
    refine ⟨rfl, rfl, rfl, rfl, rfl, ?_⟩
    simp [runCallback, totalScenes, setJustEntered]
  | removeJustEntered t =>
    refine ⟨rfl, rfl, rfl, rfl, rfl, ?_⟩
    simp [runCallback, totalScenes, setJustEntered]
  | unlock => exact absurd rfl hc

theorem SameCore.trans {a b c : State} (h1 : SameCore a b) (h2 : SameCore b c) :
    SameCore a c := by
  obtain ⟨p1, p2, p3, p4, p5, p6⟩ := h1
  obtain ⟨q1, q2, q3, q4, q5, q6⟩ := h2
  exact ⟨q1.trans p1, q2.trans p2, q3.trans p3, q4.trans p4, q5.trans p5, q6.trans p6⟩

theorem foldl_runCallback_sameCore (cs : List Callback) (s : State)
    (hcs : ∀ c ∈ cs, c ≠ Callback.unlock) :
    SameCore s (cs.foldl (fun st c => runCallback c st) s) := by
  induction cs generalizing s with
  | nil => exact ⟨rfl, rfl, rfl, rfl, rfl, rfl⟩
  | cons c cs ih =>
    simp only [List.foldl_cons]
    exact (runCallback_sameCore c s (hcs c (List.mem_cons_self _ _))).trans
      (ih _ (fun c' hc' => hcs c' (List.mem_cons_of_mem _ hc')))

theorem filter_eraseIdx_of_not (p : Nat × Callback → Bool) (l : List (Nat × Callback))
    (k : Nat) (x : Nat × Callback) (hk : l.get? k = some x) (hx : p x = false) :
    (l.eraseIdx k).filter p = l.filter p := by
  induction l generalizing k with
  | nil => simp
  | cons a l ih =>
    cases k with
    | zero =>
      simp at hk
      subst hk
      simp [hx]
    | succ k =>
      simp at hk
      simp only [List.eraseIdx_cons_succ, List.filter_cons]
      rw [ih k (by simpa using hk)]

theorem filter_eraseIdx_of_pos (p : Nat × Callback → Bool) (l : List (Nat × Callback))
    (k : Nat) (x : Nat × Callback) (hk : l.get? k = some x) (hx : p x = true) :
    ((l.eraseIdx k).filter p).length + 1 = (l.filter p).length ∧ x ∈ l.filter p := by
  induction l generalizing k with
  | nil => simp at hk
  | cons a l ih =>
    cases k with
    | zero =>
      simp at hk
      subst hk
      simp [hx]
    | succ k =>
      simp at hk
      obtain ⟨h1, h2⟩ := ih k (by simpa using hk)
      simp only [List.eraseIdx_cons_succ, List.filter_cons]
      cases hpa : p a with
      | false =>
        simp only [Bool.false_eq_true, if_false]
        exact ⟨h1, h2⟩
      | true =>
        simp only [if_true, List.length_cons, List.mem_cons]
        exact ⟨by omega, Or.inr h2⟩

theorem firesUnlock_timer (s : State) (k : Nat) :
    firesUnlock s (Event.timer k)
      = (match s.timers.get? k with
         | some (due, Callback.unlock) => decide (due ≤ s.now)
         | _ => false) := rfl

/-- A cooldown timeout that runs was pending and is due. -/
theorem firesUnlock_due (s : State) (e : Event) (h : firesUnlock s e = true) :
    ∃ k D, e = Event.timer k ∧ s.timers.get? k = some (D, Callback.unlock) ∧
      D ∈ pendingUnlocks s ∧ D ≤ s.now := by
  cases e with
  | timer k =>
    rw [firesUnlock_timer] at h
    cases hk : s.timers.get? k with
    | none =>
      rw [hk] at h
      simp at h
    | some x =>
      obtain ⟨D, c⟩ := x
      rw [hk] at h
      cases c with
      | unlock =>
        simp at h
        refine ⟨k, D, rfl, hk, ?_, h⟩
        have := (filter_eraseIdx_of_pos (fun p => p.2 = Callback.unlock) s.timers k
          (D, Callback.unlock) hk (by simp)).2
        unfold pendingUnlocks
        exact List.mem_map.mpr ⟨_, this, rfl⟩
      | addJustEntered t => simp at h
      | removeJustEntered t => simp at h
  | _ => simp [firesUnlock] at h


/-- Under the invariant `jumpToScene` returns and changes neither the lock nor the
pending cooldown timeouts nor the clock. -/
theorem jumpToScene_inv (i : Int) (s : State) (h : Inv s) :
    ∃ s', jumpToScene i s = some s' ∧ Inv s' ∧ s'.isLocked = s.isLocked ∧
      pendingUnlocks s' = pendingUnlocks s ∧ s'.now = s.now ∧
      totalScenes s' = totalScenes s := by
  obtain ⟨⟨h0, h1⟩, hf, hp⟩ := h
  by_cases hg : i < 0 ∨ i ≥ totalScenes s
  · exact ⟨s, jumpToScene_outOfRange i s hg, ⟨⟨h0, h1⟩, hf, hp⟩, rfl, rfl, rfl, rfl⟩
  · have hi0 : 0 ≤ i := by omega
    have hi1 : i < totalScenes s := by omega
    refine ⟨_, jumpToScene_inRange i s hi0 hi1, ⟨⟨hi0, ?_⟩, ?_, ?_⟩, rfl, ?_, rfl, ?_⟩
    · rw [updated_totalScenes]; exact hi1
    · intro c hc
      simp only [updated, List.mem_append, List.mem_singleton] at hc
      rcases hc with hc | hc
      · exact hf c hc
      · rw [hc]; simp
    · rw [pendingUnlocks_updated]; exact hp
    · simp
    · simp

/-- The state a successful `nextScene` or `prevScene` produces: lock set, one more
cooldown timeout, due `SCROLL_COOLDOWN` after the current time. -/
theorem moved_inv (i : Int) (s : State) (h : Inv s) (hl : s.isLocked = false)
    (hi0 : 0 ≤ i) (hi1 : i < totalScenes s) :
    Inv (lockScroll (updated { s with currentSceneIndex := i })) ∧
    pendingUnlocks (lockScroll (updated { s with currentSceneIndex := i }))
      = [s.now + SCROLL_COOLDOWN] := by
  obtain ⟨_, hf, hp⟩ := h
  rw [hl] at hp
  have hnil : pendingUnlocks s = [] := List.length_eq_zero.mp (by simpa using hp)
  have hpu : pendingUnlocks (lockScroll (updated { s with currentSceneIndex := i }))
      = [s.now + SCROLL_COOLDOWN] := by
    simp [hnil]
  refine ⟨⟨⟨hi0, ?_⟩, ?_, ?_⟩, hpu⟩
  · simpa using hi1
  · intro c hc
    simp only [lockScroll, updated, List.mem_append, List.mem_singleton] at hc
    rcases hc with hc | hc
    · exact hf c hc
    · rw [hc]; simp
  · rw [hpu]; simp

/-- What `nextScene` does under the invariant with the lock clear. -/
theorem nextScene_inv (s : State) (h : Inv s) (hl : s.isLocked = false) :
    ∃ s', nextScene s = some s' ∧ Inv s' ∧ s'.now = s.now ∧ totalScenes s' = totalScenes s ∧
      (s' = s ∨ (s'.isLocked = true ∧ pendingUnlocks s' = [s.now + SCROLL_COOLDOWN])) := by
  have hin := h.1
  by_cases hg : s.currentSceneIndex < totalScenes s - 1
  · obtain ⟨hI, hP⟩ := moved_inv (s.currentSceneIndex + 1) s h hl (by have := hin.1; omega)
      (by omega)
    exact ⟨_, nextScene_move s hin.1 hg, hI, rfl, by simp, Or.inr ⟨rfl, hP⟩⟩
  · exact ⟨s, nextScene_stay s hg, h, rfl, rfl, Or.inl rfl⟩

/-- What `prevScene` does under the invariant with the lock clear. -/
theorem prevScene_inv (s : State) (h : Inv s) (hl : s.isLocked = false) :
    ∃ s', prevScene s = some s' ∧ Inv s' ∧ s'.now = s.now ∧ totalScenes s' = totalScenes s ∧
      (s' = s ∨ (s'.isLocked = true ∧ pendingUnlocks s' = [s.now + SCROLL_COOLDOWN])) := by
  have hin := h.1
  by_cases hg : s.currentSceneIndex > 0
  · obtain ⟨hI, hP⟩ := moved_inv (s.currentSceneIndex - 1) s h hl (by omega)
      (by have := hin.2; omega)
    exact ⟨_, prevScene_move s hg hin.2, hI, rfl, by simp, Or.inr ⟨rfl, hP⟩⟩
  · exact ⟨s, prevScene_stay s hg, h, rfl, rfl, Or.inl rfl⟩

/-- What a wheel, advance/retreat key or touch input can do: nothing, record the
touch start, or, with the lock clear only, `nextScene` or `prevScene`. -/
theorem gesture_outcome (e : Event) (s : State) (hg : isGestureInput e = true) :
    step e s = some s ∨ (∃ y, step e s = some (onTouchstart y s)) ∨
    (s.isLocked = false ∧ (step e s = nextScene s ∨ step e s = prevScene s)) := by
  cases hl : s.isLocked with
  | true =>
    cases e with
    | wheel d => left; simp [step, onWheel, hl]
    | keydown code => left; simp [step, onKeydown, hl]
    | touchstart y => right; left; exact ⟨y, rfl⟩
    | touchend y => left; simp [step, onTouchend, onTouchendWith, hl]
    | dotClick i => simp [isGestureInput] at hg
    | startClick => simp [isGestureInput] at hg
    | frame => simp [isGestureInput] at hg
    | timer k => simp [isGestureInput] at hg
    | wait ms => simp [isGestureInput] at hg
  | false =>
    cases e with
    | wheel d =>
      simp only [step, onWheel, hl, Bool.false_eq_true, if_false]
      split_ifs <;> simp
    | keydown code =>
      simp only [isGestureInput, List.contains_iff_exists_mem_beq, beq_iff_eq] at hg
      simp only [step, onKeydown, hl, Bool.false_eq_true, if_false]
      split_ifs <;> simp_all
    | touchstart y => right; left; exact ⟨y, rfl⟩
    | touchend y =>
      simp only [step, onTouchend, onTouchendWith, hl, Bool.false_eq_true, if_false]
      split_ifs <;> simp
    | dotClick i => simp [isGestureInput] at hg
    | startClick => simp [isGestureInput] at hg
    | frame => simp [isGestureInput] at hg
    | timer k => simp [isGestureInput] at hg
    | wait ms => simp [isGestureInput] at hg

/-- With the lock clear an input that asks for an advance is a call of `nextScene`. -/
theorem requestsNext_step (e : Event) (s : State) (hl : s.isLocked = false)
    (h : requestsNext s e = true) : step e s = nextScene s := by
  cases e with
  | wheel d =>
    have hd : (20 : ℚ) ≤ d := by simpa [requestsNext] using h
    have h1 : ¬ |d| < 20 := by
      rw [abs_of_nonneg (by linarith)]
      linarith
    have h2 : d > 0 := by linarith
    simp [step, onWheel, hl, h1, h2]
  | keydown code =>
    simp only [requestsNext, List.contains_iff_exists_mem_beq, beq_iff_eq] at h
    obtain ⟨c, hc, rfl⟩ := h
    simp only [List.mem_cons, List.mem_singleton, List.not_mem_nil, or_false] at hc
    rcases hc with rfl | rfl | rfl <;> simp [step, onKeydown, hl]
  | touchend y =>
    have hd : 50 < s.touchStartY - y := by simpa [requestsNext] using h
    have h1 : |s.touchStartY - y| > 50 := by
      rw [abs_of_nonneg (by linarith)]
      linarith
    have h2 : s.touchStartY - y > 0 := by linarith
    simp [step, onTouchend, onTouchendWith, hl, h1, h2]
  | touchstart y => simp [requestsNext] at h
  | dotClick i => simp [requestsNext] at h
  | startClick => simp [requestsNext] at h
  | frame => simp [requestsNext] at h
  | timer k => simp [requestsNext] at h
  | wait ms => simp [requestsNext] at h

/-- With the lock clear an input that asks for a retreat is a call of `prevScene`. -/
theorem requestsPrev_step (e : Event) (s : State) (hl : s.isLocked = false)
    (h : requestsPrev s e = true) : step e s = prevScene s := by
  cases e with
  | wheel d =>
    have hd : d ≤ -20 := by simpa [requestsPrev] using h
    have h1 : ¬ |d| < 20 := by
      rw [abs_of_nonpos (by linarith)]
      linarith
    have h2 : ¬ d > 0 := by linarith
    simp [step, onWheel, hl, h1, h2]
  | keydown code =>
    simp only [requestsPrev, List.contains_iff_exists_mem_beq, beq_iff_eq] at h
    obtain ⟨c, hc, rfl⟩ := h
    simp only [List.mem_cons, List.mem_singleton, List.not_mem_nil, or_false] at hc
    rcases hc with rfl | rfl <;> simp [step, onKeydown, hl]
  | touchend y =>
    have hd : s.touchStartY - y < -50 := by simpa [requestsPrev] using h
    have h1 : |s.touchStartY - y| > 50 := by
      rw [abs_of_nonpos (by linarith)]
      linarith
    have h2 : ¬ s.touchStartY - y > 0 := by linarith
    simp [step, onTouchend, onTouchendWith, hl, h1, h2]
  | touchstart y => simp [requestsPrev] at h
  | dotClick i => simp [requestsPrev] at h
  | startClick => simp [requestsPrev] at h
  | frame => simp [requestsPrev] at h
  | timer k => simp [requestsPrev] at h
  | wait ms => simp [requestsPrev] at h

/-- The outcome of a listener that ends in one of the navigation functions. -/
theorem nav_outcome_inv (s : State) (r : Option State) (h : Inv s)
    (hr : r = some s ∨ (s.isLocked = false ∧ (r = nextScene s ∨ r = prevScene s)) ∨
      ∃ i, r = jumpToScene i s) :
    ∃ s', r = some s' ∧ Inv s' ∧ s'.now = s.now ∧ totalScenes s' = totalScenes s ∧
      ((s'.isLocked = s.isLocked ∧ pendingUnlocks s' = pendingUnlocks s) ∨
       (s.isLocked = false ∧ s'.isLocked = true ∧
        pendingUnlocks s' = [s.now + SCROLL_COOLDOWN])) := by
  rcases hr with rfl | ⟨hl, rfl | rfl⟩ | ⟨i, rfl⟩
  · exact ⟨s, rfl, h, rfl, rfl, Or.inl ⟨rfl, rfl⟩⟩
  · obtain ⟨s', h1, h2, h3, h4, h5⟩ := nextScene_inv s h hl
    refine ⟨s', h1, h2, h3, h4, ?_⟩
    rcases h5 with rfl | ⟨h6, h7⟩
    · exact Or.inl ⟨rfl, rfl⟩
    · exact Or.inr ⟨hl, h6, h7⟩
  · obtain ⟨s', h1, h2, h3, h4, h5⟩ := prevScene_inv s h hl
    refine ⟨s', h1, h2, h3, h4, ?_⟩
    rcases h5 with rfl | ⟨h6, h7⟩
    · exact Or.inl ⟨rfl, rfl⟩
    · exact Or.inr ⟨hl, h6, h7⟩
  · obtain ⟨s', h1, h2, h3, h4, h5, h6⟩ := jumpToScene_inv i s h
    exact ⟨s', h1, h2, h5, h6, Or.inl ⟨h3, h4⟩⟩

/-- Every listener of the engine ends in one of the navigation functions. -/
theorem listener_outcome (e : Event) (s : State)
    (he : match e with
      | Event.wheel _ | Event.keydown _ | Event.touchend _ | Event.dotClick _
      | Event.startClick => True
      | _ => False) :
    step e s = some s ∨ (s.isLocked = false ∧ (step e s = nextScene s ∨ step e s = prevScene s)) ∨
      ∃ i, step e s = jumpToScene i s := by
  cases e with
  | wheel d =>
    simp only [step, onWheel]
    split_ifs with h1 h2 h3 <;> simp_all
  | keydown code =>
    simp only [step, onKeydown]
    split_ifs with h1 h2 h3 h4 h5 h6
    · simp
    · simp_all
    · simp_all
    · right; right; exact ⟨_, rfl⟩
    · right; right; exact ⟨_, rfl⟩
    · simp_all
    · simp
  | touchend y =>
    simp only [step, onTouchend, onTouchendWith]
    split_ifs with h1 h2 h3 <;> simp_all
  | dotClick i => right; right; exact ⟨_, rfl⟩
  | startClick => right; right; exact ⟨_, rfl⟩
  | touchstart y => exact he.elim
  | frame => exact he.elim
  | timer k => exact he.elim
  | wait ms => exact he.elim

theorem step_timer (s : State) (k : Nat) :
    step (Event.timer k) s
      = (match s.timers.get? k with
         | none => some s
         | some (due, c) =>
           if due ≤ s.now then some (runCallback c { s with timers := s.timers.eraseIdx k })
           else some s) := rfl

/-- One turn of the event loop keeps the invariant. The lock and the pending
cooldown timeouts change in two ways only: a listener moves the scene with the
lock clear, which sets the lock and schedules one timeout due `SCROLL_COOLDOWN`
later, or a cooldown timeout runs, which clears the lock and leaves none pending. -/
theorem step_inv (e : Event) (s : State) (h : Inv s) :
    ∃ s', step e s = some s' ∧ Inv s' ∧ s.now ≤ s'.now ∧ totalScenes s' = totalScenes s ∧
      (firesUnlock s e = false →
        (s'.isLocked = s.isLocked ∧ pendingUnlocks s' = pendingUnlocks s) ∨
        (s.isLocked = false ∧ s'.isLocked = true ∧
          pendingUnlocks s' = [s.now + SCROLL_COOLDOWN])) ∧
      (firesUnlock s e = true → s'.isLocked = false ∧ pendingUnlocks s' = []) := by
  have nav : ∀ e' : Event, (match e' with
      | Event.wheel _ | Event.keydown _ | Event.touchend _ | Event.dotClick _
      | Event.startClick => True
      | _ => False) → firesUnlock s e' = false →
      ∃ s', step e' s = some s' ∧ Inv s' ∧ s.now ≤ s'.now ∧ totalScenes s' = totalScenes s ∧
      (firesUnlock s e' = false →
        (s'.isLocked = s.isLocked ∧ pendingUnlocks s' = pendingUnlocks s) ∨
        (s.isLocked = false ∧ s'.isLocked = true ∧
          pendingUnlocks s' = [s.now + SCROLL_COOLDOWN])) ∧
      (firesUnlock s e' = true → s'.isLocked = false ∧ pendingUnlocks s' = []) := by
    intro e' he' hf
    obtain ⟨s', h1, h2, h3, h4, h5⟩ := nav_outcome_inv s (step e' s) h (listener_outcome e' s he')
    exact ⟨s', h1, h2, by omega, h4, fun _ => h5, fun ht => by rw [hf] at ht; cases ht⟩
  cases e with
  | wheel d => exact nav _ trivial rfl
  | keydown code => exact nav _ trivial rfl
  | touchend y => exact nav _ trivial rfl
  | dotClick i => exact nav _ trivial rfl
  | startClick => exact nav _ trivial rfl
  | touchstart y =>
    refine ⟨_, rfl, ?_, le_refl _, rfl, fun _ => Or.inl ⟨rfl, rfl⟩, fun ht => ?_⟩
    · exact SameCore.inv (s := s) ⟨rfl, rfl, rfl, rfl, rfl, rfl⟩ h
    · simp [firesUnlock] at ht
  | wait ms =>
    refine ⟨_, rfl, ?_, Nat.le_add_right _ _, rfl, fun _ => Or.inl ⟨rfl, rfl⟩, fun ht => ?_⟩
    · obtain ⟨a, b, c⟩ := h
      exact ⟨a, b, c⟩
    · simp [firesUnlock] at ht
  | frame =>
    obtain ⟨a, b, c⟩ := h
    have hI : Inv { s with frames := [] } := ⟨a, by simp, c⟩
    have hS := foldl_runCallback_sameCore s.frames { s with frames := [] } b
    have hI' := hS.inv hI
    obtain ⟨q1, q2, q3, q4, q5, q6⟩ := hS
    refine ⟨_, rfl, hI', ?_, q6, fun _ => Or.inl ⟨q2, ?_⟩, fun ht => ?_⟩
    · rw [q5]
    · unfold pendingUnlocks
      rw [q3]
    · simp [firesUnlock] at ht
  | timer k =>
    obtain ⟨a, b, c⟩ := h
    cases hk : s.timers.get? k with
    | none =>
      refine ⟨s, by rw [step_timer, hk], ⟨a, b, c⟩, le_refl _, rfl,
        fun _ => Or.inl ⟨rfl, rfl⟩, fun ht => ?_⟩
      rw [firesUnlock_timer, hk] at ht
      cases ht
    | some x =>
      obtain ⟨due, cb⟩ := x
      by_cases hdue : due ≤ s.now
      · have hstep : step (Event.timer k) s
            = some (runCallback cb { s with timers := s.timers.eraseIdx k }) := by
          rw [step_timer, hk]
          exact if_pos hdue
        cases cb with
        | unlock =>
          obtain ⟨e1, e2⟩ := filter_eraseIdx_of_pos (fun p => p.2 = Callback.unlock) s.timers k
            (due, Callback.unlock) hk (by simp)
          have hlen : (pendingUnlocks s).length
              = ((s.timers.eraseIdx k).filter (fun p => p.2 = Callback.unlock)).length + 1 := by
            unfold pendingUnlocks
            rw [List.length_map]
            omega
          have hz : ((s.timers.eraseIdx k).filter (fun p => p.2 = Callback.unlock)).length = 0 := by
            rw [hlen] at c
            split_ifs at c
            omega
          have hnil : pendingUnlocks
              (runCallback Callback.unlock { s with timers := s.timers.eraseIdx k }) = [] := by
            unfold pendingUnlocks
            simp only [runCallback]
            rw [List.length_eq_zero.mp hz]
            rfl
          refine ⟨_, hstep, ⟨a, b, ?_⟩, le_refl _, rfl, fun hf => ?_, fun _ => ⟨rfl, hnil⟩⟩
          · rw [hnil]
            rfl
          · rw [firesUnlock_timer, hk] at hf
            simp [hdue] at hf
        | addJustEntered t =>
          have hp : pendingUnlocks
              (runCallback (Callback.addJustEntered t) { s with timers := s.timers.eraseIdx k })
              = pendingUnlocks s := by
            unfold pendingUnlocks
            simp only [runCallback]
            rw [filter_eraseIdx_of_not _ _ _ _ hk (by simp)]
          have hT : totalScenes
              (runCallback (Callback.addJustEntered t) { s with timers := s.timers.eraseIdx k })
              = totalScenes s := by
            simp [runCallback, totalScenes, setJustEntered]
          refine ⟨_, hstep, ⟨⟨a.1, ?_⟩, b, ?_⟩, le_refl _, hT, fun _ => Or.inl ⟨rfl, hp⟩,
            fun ht => ?_⟩
          · rw [hT]; exact a.2
          · rw [hp]; exact c
          · rw [firesUnlock_timer, hk] at ht
            cases ht
        | removeJustEntered t =>
          have hp : pendingUnlocks
              (runCallback (Callback.removeJustEntered t) { s with timers := s.timers.eraseIdx k })
              = pendingUnlocks s := by
            unfold pendingUnlocks
            simp only [runCallback]
            rw [filter_eraseIdx_of_not _ _ _ _ hk (by simp)]
          have hT : totalScenes
              (runCallback (Callback.removeJustEntered t) { s with timers := s.timers.eraseIdx k })
              = totalScenes s := by
            simp [runCallback, totalScenes, setJustEntered]
          refine ⟨_, hstep, ⟨⟨a.1, ?_⟩, b, ?_⟩, le_refl _, hT, fun _ => Or.inl ⟨rfl, hp⟩,
            fun ht => ?_⟩
          · rw [hT]; exact a.2
          · rw [hp]; exact c
          · rw [firesUnlock_timer, hk] at ht
            cases ht
      · refine ⟨s, by rw [step_timer, hk]; exact if_neg hdue, ⟨a, b, c⟩, le_refl _, rfl,
          fun _ => Or.inl ⟨rfl, rfl⟩, fun ht => ?_⟩
        rw [firesUnlock_timer, hk] at ht
        cases cb <;> simp [hdue] at ht

/-- The state after startup satisfies the invariant, with the lock clear. -/
theorem init_inv (scenes : List Scene) (strong : Bool) (s0 : State)
    (h : init scenes strong = some s0) : Inv s0 ∧ s0.isLocked = false := by
  have hne : scenes ≠ [] := by
    intro hnil
    subst hnil
    simp [init, updateScene, startState, sceneAt] at h
  rw [init_eq scenes strong hne] at h
  cases h
  have hpos := List.length_pos.mpr hne
  refine ⟨⟨⟨?_, ?_⟩, ?_, ?_⟩, rfl⟩
  · show (0 : Int) ≤ 0
    omega
  · rw [updated_totalScenes]
    show (0 : Int) < (scenes.length : Int)
    omega
  · intro c hc
    simp only [updated, startState, List.nil_append, List.mem_singleton] at hc
    rw [hc]
    simp
  · rfl

/-- Every trace of events returns and keeps the invariant; the clock never goes back. -/
theorem run_inv (evs : List Event) (s : State) (h : Inv s) :
    ∃ s', run evs s = some s' ∧ Inv s' ∧ s.now ≤ s'.now := by
  induction evs generalizing s with
  | nil => exact ⟨s, rfl, h, le_refl _⟩
  | cons e es ih =>
    obtain ⟨s1, h1, h2, h3, _⟩ := step_inv e s h
    obtain ⟨s2, h4, h5, h6⟩ := ih s1 h2
    exact ⟨s2, by simp [run, h1, h4], h5, by omega⟩

/-- While no cooldown timeout runs, a set lock stays set and the pending cooldown
timeout stays the same one. -/
theorem run_locked (evs : List Event) (s : State) (D : Nat) (h : Inv s)
    (hl : s.isLocked = true) (hp : pendingUnlocks s = [D])
    (hq : noUnlockFired s evs = true) :
    ∃ s', run evs s = some s' ∧ Inv s' ∧ s'.isLocked = true ∧ pendingUnlocks s' = [D] := by
  induction evs generalizing s with
  | nil => exact ⟨s, rfl, h, hl, hp⟩
  | cons e es ih =>
    obtain ⟨s1, h1, h2, _, _, h5, _⟩ := step_inv e s h
    simp only [noUnlockFired, h1, Bool.and_eq_true, Bool.not_eq_true'] at hq
    obtain ⟨hq1, hq2⟩ := hq
    have hs1 : s1.isLocked = true ∧ pendingUnlocks s1 = [D] := by
      rcases h5 hq1 with ⟨a, b⟩ | ⟨a, _, _⟩
      · exact ⟨a.trans hl, b.trans hp⟩
      · rw [hl] at a
        cases a
    obtain ⟨s2, h6, h7, h8, h9⟩ := ih s1 h2 hs1.1 hs1.2 hq2
    exact ⟨s2, by simp [run, h1, h6], h7, h8, h9⟩

/-- A trace that ends before the pending cooldown timeout is due has not run it. -/
theorem run_early (evs : List Event) (s s2 : State) (D : Nat) (h : Inv s)
    (hl : s.isLocked = true) (hp : pendingUnlocks s = [D])
    (hr : run evs s = some s2) (hD : s2.now < D) :
    noUnlockFired s evs = true := by
  induction evs generalizing s with
  | nil => rfl
  | cons e es ih =>
    obtain ⟨s1, h1, h2, h3, _, h5, _⟩ := step_inv e s h
    simp only [run, h1, Option.some_bind] at hr
    obtain ⟨s2', hr', _, hmono⟩ := run_inv es s1 h2
    rw [hr] at hr'
    cases hr'
    have hq1 : firesUnlock s e = false := by
      cases hf : firesUnlock s e with
      | false => rfl
      | true =>
        obtain ⟨k, D', _, _, hmem, hle⟩ := firesUnlock_due s e hf
        rw [hp, List.mem_singleton] at hmem
        omega
    have hs1 : s1.isLocked = true ∧ pendingUnlocks s1 = [D] := by
      rcases h5 hq1 with ⟨a, b⟩ | ⟨a, _, _⟩
      · exact ⟨a.trans hl, b.trans hp⟩
      · rw [hl] at a
        cases a
    simp only [noUnlockFired, h1, hq1, Bool.not_false, Bool.true_and]
    exact ih s1 h2 hs1.1 hs1.2 hr

/-- With the lock set every wheel, advance/retreat key and touch input returns and
leaves the index as it was. -/
theorem gesture_locked (e : Event) (s : State) (hl : s.isLocked = true)
    (hg : isGestureInput e = true) :
    ∃ s', step e s = some s' ∧ s'.currentSceneIndex = s.currentSceneIndex ∧
      s'.isLocked = true := by
  rcases gesture_outcome e s hg with h | ⟨y, h⟩ | ⟨h, _⟩
  · exact ⟨s, h, rfl, hl⟩
  · exact ⟨_, h, rfl, hl⟩
  · rw [hl] at h
    cases h

/-- With the lock clear and the index naming a scene, an input that asks for an
advance or a retreat moves the index by one when the move is within bounds. -/
theorem gesture_unlocked (e : Event) (s : State) (hin : InRange s) (hl : s.isLocked = false) :
    (requestsNext s e = true → s.currentSceneIndex < totalScenes s - 1 →
      ∃ s', step e s = some s' ∧ s'.currentSceneIndex = s.currentSceneIndex + 1) ∧
    (requestsPrev s e = true → s.currentSceneIndex > 0 →
      ∃ s', step e s = some s' ∧ s'.currentSceneIndex = s.currentSceneIndex - 1) := by
  constructor
  · intro hr hb
    rw [requestsNext_step e s hl hr, nextScene_move s hin.1 hb]
    exact ⟨_, rfl, rfl⟩
  · intro hr hb
    rw [requestsPrev_step e s hl hr, prevScene_move s hb hin.2]
    exact ⟨_, rfl, rfl⟩

/-! ## Claims on the input listeners -/

/-- C2: let a wheel, advance/retreat key or touch input move the scene, in a state
reached from startup by any events. Then the lock is set and one cooldown
timeout is pending, due 1000 ms later; it cannot run earlier; as long as it has
not run, every trace of events returns with the lock still set, and every
further wheel, advance/retreat key or touch input leaves the index unchanged;
and once it has run the lock is clear, and from then on, whenever the lock is
clear, an input that asks for an advance or a retreat changes the index by one
when the move is within bounds. -/
theorem cooldown_serialises (scenes : List Scene) (strong : Bool) (pre : List Event)
    (s0 s s1 : State) (e : Event)
    (hinit : init scenes strong = some s0) (hpre : run pre s0 = some s)
    (hg : isGestureInput e = true) (hstep : step e s = some s1)
    (hmoved : s1.currentSceneIndex ≠ s.currentSceneIndex) :
    (s1.isLocked = true ∧ pendingUnlocks s1 = [s.now + 1000] ∧ s1.now = s.now) ∧
    (∀ evs s2, run evs s1 = some s2 → s2.now < s.now + 1000 →
      noUnlockFired s1 evs = true) ∧
    (∀ evs, noUnlockFired s1 evs = true →
      ∃ s2, run evs s1 = some s2 ∧ s2.isLocked = true ∧
        pendingUnlocks s2 = [s.now + 1000] ∧
        ∀ e', isGestureInput e' = true →
          ∃ s3, step e' s2 = some s3 ∧ s3.currentSceneIndex = s2.currentSceneIndex) ∧
    (∀ evs s2 k, noUnlockFired s1 evs = true → run evs s1 = some s2 →
      firesUnlock s2 (Event.timer k) = true →
      ∃ s3, step (Event.timer k) s2 = some s3 ∧ s3.isLocked = false ∧
        pendingUnlocks s3 = [] ∧
        ∀ evs' s4, run evs' s3 = some s4 → s4.isLocked = false → ∀ e',
          (requestsNext s4 e' = true → s4.currentSceneIndex < totalScenes s4 - 1 →
            ∃ s5, step e' s4 = some s5 ∧ s5.currentSceneIndex = s4.currentSceneIndex + 1) ∧
          (requestsPrev s4 e' = true → s4.currentSceneIndex > 0 →
            ∃ s5, step e' s4 = some s5 ∧
              s5.currentSceneIndex = s4.currentSceneIndex - 1)) := by
  obtain ⟨hI0, _⟩ := init_inv scenes strong s0 hinit
  obtain ⟨s', hs', hI, _⟩ := run_inv pre s0 hI0
  rw [hpre] at hs'
  cases hs'
  -- the moving input was accepted with the lock clear and set it
  have hfirst : Inv s1 ∧ s1.isLocked = true ∧ pendingUnlocks s1 = [s.now + 1000] ∧
      s1.now = s.now := by
    rcases gesture_outcome e s hg with h | ⟨y, h⟩ | ⟨hl, h | h⟩
    · rw [hstep] at h
      cases h
      exact absurd rfl hmoved
    · rw [hstep] at h
      cases h
      exact absurd rfl hmoved
    · obtain ⟨t, h1, h2, h3, _, h5⟩ := nextScene_inv s hI hl
      rw [hstep] at h
      rw [← h] at h1
      cases h1
      rcases h5 with rfl | ⟨h6, h7⟩
      · exact absurd rfl hmoved
      · exact ⟨h2, h6, h7, h3⟩
    · obtain ⟨t, h1, h2, h3, _, h5⟩ := prevScene_inv s hI hl
      rw [hstep] at h
      rw [← h] at h1
      cases h1
      rcases h5 with rfl | ⟨h6, h7⟩
      · exact absurd rfl hmoved
      · exact ⟨h2, h6, h7, h3⟩
  obtain ⟨hI1, hl1, hp1, hn1⟩ := hfirst
  refine ⟨⟨hl1, hp1, hn1⟩, ?_, ?_, ?_⟩
  · intro evs s2 hr hlt
    exact run_early evs s1 s2 _ hI1 hl1 hp1 hr hlt
  · intro evs hq
    obtain ⟨s2, h1, _, h3, h4⟩ := run_locked evs s1 _ hI1 hl1 hp1 hq
    refine ⟨s2, h1, h3, h4, fun e' he' => ?_⟩
    obtain ⟨s3, k1, k2, _⟩ := gesture_locked e' s2 h3 he'
    exact ⟨s3, k1, k2⟩
  · intro evs s2 k hq hr hf
    obtain ⟨t, h1, h2, _, _⟩ := run_locked evs s1 _ hI1 hl1 hp1 hq
    rw [hr] at h1
    cases h1
    obtain ⟨s3, g1, g2, _, _, _, g6⟩ := step_inv (Event.timer k) s2 h2
    obtain ⟨g7, g8⟩ := g6 hf
    refine ⟨s3, g1, g7, g8, ?_⟩
    intro evs' s4 hr4 hl4 e'
    obtain ⟨t, k1, k2, _⟩ := run_inv evs' s3 g2
    rw [hr4] at k1
    cases k1
    exact gesture_unlocked e' s4 k2.1 hl4

/-- C2, worked example: five scenes, ArrowDown right after startup. -/
theorem cooldown_serialises_witness :
    init fiveScenes false = some fiveStart ∧ run [] fiveStart = some fiveStart ∧
    isGestureInput (Event.keydown "ArrowDown") = true ∧
    step (Event.keydown "ArrowDown") fiveStart = some fiveLocked ∧
    fiveLocked.currentSceneIndex ≠ fiveStart.currentSceneIndex ∧
    (fiveLocked.isLocked = true ∧ pendingUnlocks fiveLocked = [fiveStart.now + 1000] ∧
      fiveLocked.now = fiveStart.now) :=
  ⟨by decide, rfl, by decide, by decide, by decide,
    (cooldown_serialises fiveScenes false [] fiveStart fiveStart fiveLocked
      (Event.keydown "ArrowDown") (by decide) rfl (by decide) (by decide) (by decide)).1⟩

/-- C3 (amended): with five scenes, index 0 and the lock clear, let three inputs
arrive through the wheel, keyboard or touch listeners with nothing in between,
the first of them asking for an advance. Only the first changes the index: it
is 1 after the first input and 1 after the third. -/
theorem three_advance_inputs (scenes : List Scene) (strong : Bool) (s0 : State)
    (e1 e2 e3 : Event) (h5 : scenes.length = 5) (hinit : init scenes strong = some s0)
    (h1 : requestsNext s0 e1 = true) (h2 : isGestureInput e2 = true)
    (h3 : isGestureInput e3 = true) :
    s0.currentSceneIndex = 0 ∧ s0.isLocked = false ∧
    ∃ s1 s3, step e1 s0 = some s1 ∧ s1.currentSceneIndex = 1 ∧
      run [e1, e2, e3] s0 = some s3 ∧ s3.currentSceneIndex = 1 := by
  have hne : scenes ≠ [] := by
    intro hnil
    simp [hnil] at h5
  rw [init_eq scenes strong hne] at hinit
  cases hinit
  have hT : totalScenes (updated (startState scenes strong)) = 5 := by
    rw [updated_totalScenes]
    show (scenes.length : Int) = 5
    omega
  have hstep1 := requestsNext_step e1 _ rfl h1
  rw [nextScene_move _ (by show (0 : Int) ≤ 0; omega)
    (by rw [hT]; show (0 : Int) < 5 - 1; omega)] at hstep1
  obtain ⟨s1, hs1, hidx, hlk⟩ : ∃ s1, step e1 (updated (startState scenes strong)) = some s1 ∧
      s1.currentSceneIndex = 1 ∧ s1.isLocked = true := ⟨_, hstep1, rfl, rfl⟩
  obtain ⟨s2, g1, g2, g3⟩ := gesture_locked e2 s1 hlk h2
  obtain ⟨s3, k1, k2, _⟩ := gesture_locked e3 s2 g3 h3
  refine ⟨rfl, rfl, s1, s3, hs1, hidx, ?_, ?_⟩
  · simp only [run, hs1, g1, k1, Option.some_bind]
  · rw [k2, g2, hidx]

/-- C3 (amended), worked example: ArrowDown, then a wheel delta of 30, then Space. -/
theorem three_advance_inputs_witness :
    fiveScenes.length = 5 ∧ init fiveScenes false = some fiveStart ∧
    requestsNext fiveStart (Event.keydown "ArrowDown") = true ∧
    isGestureInput (Event.wheel 30) = true ∧ isGestureInput (Event.keydown "Space") = true ∧
    ∃ s1 s3, step (Event.keydown "ArrowDown") fiveStart = some s1 ∧ s1.currentSceneIndex = 1 ∧
      run [Event.keydown "ArrowDown", Event.wheel 30, Event.keydown "Space"] fiveStart
        = some s3 ∧ s3.currentSceneIndex = 1 :=
  ⟨by decide, by decide, by decide, by decide, by decide,
    (three_advance_inputs fiveScenes false fiveStart (Event.keydown "ArrowDown")
      (Event.wheel 30) (Event.keydown "Space") (by decide) (by decide) (by decide)
      (by decide) (by decide)).2.2⟩

/-- The call of `preventDefault` depends on the code alone. -/
theorem onKeydown_fst (code : String) (s : State) :
    (onKeydown code s).1 = preventDefaultCodes.contains code := by
  unfold onKeydown
  split_ifs <;> rfl

/-- With the lock set the `keydown` listener changes nothing, whatever the code. -/
theorem onKeydown_locked (code : String) (s : State) (hl : s.isLocked = true) :
    (onKeydown code s).2 = some s := by
  simp [onKeydown, hl]

/-- C8, as stated, fails: five scenes, index 1, lock set by the ArrowDown that led
there. A keydown with code Home leaves the index at 1, not 0, and a keydown
with code End leaves it at 1, not 4. With a single scene the start control
leaves the index at 0. -/
theorem home_end_ignored_under_lock :
    (init fiveScenes false).bind (step (Event.keydown "ArrowDown")) = some fiveLocked ∧
    fiveLocked.isLocked = true ∧ fiveLocked.currentSceneIndex = 1 ∧
    totalScenes fiveLocked = 5 ∧
    (step (Event.keydown "Home") fiveLocked).map (fun s => s.currentSceneIndex) = some 1 ∧
    (step (Event.keydown "End") fiveLocked).map (fun s => s.currentSceneIndex) = some 1 ∧
    ((init [Scene.mk false false false] false).bind (step Event.startClick)).map
      (fun s => s.currentSceneIndex) = some 0 := by
  decide

/-- C8 (amended): while the lock flag is true, a click on the indicator of scene i
sets the index to i and the start control sets it to 1 when there are at least
two scenes, both leaving the lock set; a keydown, Home and End included, leaves
the state unchanged. -/
theorem goto_inputs_under_lock (s : State) (hl : s.isLocked = true) :
    (∀ i : Nat, (i : Int) < totalScenes s →
      ∃ s', step (Event.dotClick i) s = some s' ∧ s'.currentSceneIndex = (i : Int) ∧
        s'.isLocked = true) ∧
    (2 ≤ totalScenes s →
      ∃ s', step Event.startClick s = some s' ∧ s'.currentSceneIndex = 1 ∧
        s'.isLocked = true) ∧
    (∀ code : String, step (Event.keydown code) s = some s) := by
  refine ⟨fun i hi => ?_, fun h2 => ?_, fun code => onKeydown_locked code s hl⟩
  · exact ⟨_, jumpToScene_inRange (i : Int) s (by omega) hi, rfl, hl⟩
  · exact ⟨_, jumpToScene_inRange 1 s (by omega) (by omega), rfl, hl⟩

/-- C8 (amended), worked example: five scenes, index 1, lock set. -/
theorem goto_inputs_under_lock_witness :
    fiveLocked.isLocked = true ∧ ((3 : Nat) : Int) < totalScenes fiveLocked ∧
    (∃ s', step (Event.dotClick 3) fiveLocked = some s' ∧ s'.currentSceneIndex = ((3 : Nat) : Int) ∧
      s'.isLocked = true) ∧
    step (Event.keydown "Home") fiveLocked = some fiveLocked :=
  ⟨rfl, by decide, (goto_inputs_under_lock fiveLocked rfl).1 3 (by decide),
    (goto_inputs_under_lock fiveLocked rfl).2.2 "Home"⟩

/-- C9: with the lock flag false the keydown listener acts on the code as follows:
ArrowDown, PageDown and Space do what nextScene() does, ArrowUp and PageUp what
prevScene() does, Home what jumpToScene(0) does, End what jumpToScene(N-1)
does, and every other code leaves the state unchanged. -/
theorem keydown_unlocked (s : State) (code : String) (hl : s.isLocked = false) :
    (code = "ArrowDown" ∨ code = "PageDown" ∨ code = "Space" →
      (onKeydown code s).2 = nextScene s) ∧
    (code = "ArrowUp" ∨ code = "PageUp" → (onKeydown code s).2 = prevScene s) ∧
    (code = "Home" → (onKeydown code s).2 = jumpToScene 0 s) ∧
    (code = "End" → (onKeydown code s).2 = jumpToScene (totalScenes s - 1) s) ∧
    (code ∉ switchCodes → (onKeydown code s).2 = some s) := by
  refine ⟨?_, ?_, ?_, ?_, ?_⟩
  · rintro (rfl | rfl | rfl) <;> simp [onKeydown, hl]
  · rintro (rfl | rfl) <;> simp [onKeydown, hl]
  · rintro rfl
    simp [onKeydown, hl]
  · rintro rfl
    simp [onKeydown, hl]
  · intro hc
    simp only [switchCodes, List.mem_cons, List.mem_singleton, List.not_mem_nil, or_false,
      not_or] at hc
    obtain ⟨c1, c2, c3, c4, c5, c6, c7⟩ := hc
    simp [onKeydown, hl, c1, c2, c3, c4, c5, c6, c7]

/-- C9, worked example: after startup with five scenes, Space is nextScene() and the
code KeyA changes nothing. -/
theorem keydown_unlocked_witness :
    fiveStart.isLocked = false ∧
    (onKeydown "Space" fiveStart).2 = nextScene fiveStart ∧
    "KeyA" ∉ switchCodes ∧ (onKeydown "KeyA" fiveStart).2 = some fiveStart :=
  ⟨rfl, (keydown_unlocked fiveStart "Space" rfl).1 (Or.inr (Or.inr rfl)), by decide,
    (keydown_unlocked fiveStart "KeyA" rfl).2.2.2.2 (by decide)⟩

/-- C10, at the failing input: for a keydown with code Space, in every state and so
for both values of the lock flag, preventDefault is not called, although the
switch handles Space (with the lock clear it is nextScene()). The list that
guards preventDefault holds the string of one blank instead, which no case of
the switch handles. The other six codes do have their default suppressed. -/
theorem space_default_not_prevented (s : State) :
    (onKeydown "Space" s).1 = false ∧
    (onKeydown "Space" { s with isLocked := false }).2 = nextScene { s with isLocked := false } ∧
    decide ("Space" ∈ switchCodes) = true ∧ decide ("Space" ∈ preventDefaultCodes) = false ∧
    (onKeydown " " s).1 = true ∧ decide (" " ∈ switchCodes) = false ∧
    (["ArrowDown", "PageDown", "ArrowUp", "PageUp", "Home", "End"].all
      (fun code => (onKeydown code s).1)) = true := by
  refine ⟨?_, ?_, by decide, by decide, ?_, by decide, ?_⟩
  · rw [onKeydown_fst]
    decide
  · simp [onKeydown]
  · rw [onKeydown_fst]
    decide
  · simp only [List.all_cons, List.all_nil, onKeydown_fst]
    decide

/-! ## Claims on the wheel and touch thresholds and on the ambient flag -/

/-- C11: for every wheel event received while the lock is clear, a delta of
magnitude below 20 leaves the state unchanged, a delta of at least 20 does
exactly what nextScene() does and a delta of at most -20 exactly what
prevScene() does; so a delta of 5 changes nothing, neither does one of 19.5,
and deltas of 20 and -20 are not ignored. -/
theorem wheel_threshold (s : State) (deltaY : ℚ) (hl : s.isLocked = false) :
    (|deltaY| < 20 → onWheel deltaY s = some s) ∧
    (deltaY ≥ 20 → onWheel deltaY s = nextScene s) ∧
    (deltaY ≤ -20 → onWheel deltaY s = prevScene s) ∧
    onWheel 5 s = some s ∧ onWheel (39 / 2) s = some s ∧
    onWheel 20 s = nextScene s ∧ onWheel (-20) s = prevScene s := by
  have hnext : ∀ d : ℚ, d ≥ 20 → onWheel d s = nextScene s := by
    intro d hd
    have h1 : ¬ |d| < 20 := by
      rw [abs_of_nonneg (by linarith)]
      linarith
    have h2 : d > 0 := by linarith
    simp [onWheel, hl, h1, h2]
  have hprev : ∀ d : ℚ, d ≤ -20 → onWheel d s = prevScene s := by
    intro d hd
    have h1 : ¬ |d| < 20 := by
      rw [abs_of_nonpos (by linarith)]
      linarith
    have h2 : ¬ d > 0 := by linarith
    simp [onWheel, hl, h1, h2]
  have hstay : ∀ d : ℚ, |d| < 20 → onWheel d s = some s := by
    intro d hd
    simp [onWheel, hl, hd]
  refine ⟨hstay deltaY, hnext deltaY, hprev deltaY, hstay 5 ?_, hstay (39 / 2) ?_,
    hnext 20 (le_refl _), hprev (-20) (le_refl _)⟩
  · rw [abs_lt]
    constructor <;> norm_num
  · rw [abs_lt]
    constructor <;> norm_num

/-- C11, worked example: after startup with five scenes a delta of 20 moves to
scene 1 and a delta of 19.5 changes nothing. -/
theorem wheel_threshold_witness :
    fiveStart.isLocked = false ∧ (20 : ℚ) ≥ 20 ∧ |(39 / 2 : ℚ)| < 20 ∧
    onWheel 20 fiveStart = some fiveLocked ∧
    onWheel (39 / 2) fiveStart = some fiveStart :=
  have h : |(39 / 2 : ℚ)| < 20 := by
    rw [abs_lt]
    constructor <;> norm_num
  ⟨rfl, le_refl _, h,
    ((wheel_threshold fiveStart 20 rfl).2.1 (le_refl _)).trans (by decide),
    (wheel_threshold fiveStart (39 / 2) rfl).1 h⟩

/-- C12: for every touch start at y0 followed by a touch end at y1 while the lock is
clear, with diff the value the listener computes for y0 - y1 (whatever the
subtraction of doubles makes of it): when |diff| <= 50 the touch end leaves
the state unchanged, when diff > 50 it does exactly what nextScene() does and
when diff < -50 exactly what prevScene() does; y0 = 500, y1 = 430, whose
difference 70 is exact, is nextScene(), also through the event loop. -/
theorem touch_threshold (sub : ℚ → ℚ → ℚ) (s : State) (y0 y1 : ℚ)
    (hl : s.isLocked = false) :
    (|sub y0 y1| ≤ 50 →
      onTouchendWith sub y1 (onTouchstart y0 s) = some (onTouchstart y0 s)) ∧
    (sub y0 y1 > 50 →
      onTouchendWith sub y1 (onTouchstart y0 s) = nextScene (onTouchstart y0 s)) ∧
    (sub y0 y1 < -50 →
      onTouchendWith sub y1 (onTouchstart y0 s) = prevScene (onTouchstart y0 s)) ∧
    (sub 500 430 = 70 →
      onTouchendWith sub 430 (onTouchstart 500 s) = nextScene (onTouchstart 500 s)) ∧
    run [Event.touchstart 500, Event.touchend 430] s = nextScene (onTouchstart 500 s) := by
  have hl' : ∀ a : ℚ, (onTouchstart a s).isLocked = false := fun _ => hl
  have hT : ∀ a : ℚ, (onTouchstart a s).touchStartY = a := fun _ => rfl
  have hnext : ∀ (f : ℚ → ℚ → ℚ) (a b : ℚ), f a b > 50 →
      onTouchendWith f b (onTouchstart a s) = nextScene (onTouchstart a s) := by
    intro f a b hd
    have h1 : |f a b| > 50 := by
      rw [abs_of_nonneg (by linarith)]
      exact hd
    have h2 : f a b > 0 := by linarith
    simp [onTouchendWith, hl' a, hT a, h1, h2]
  refine ⟨fun h => ?_, hnext sub y0 y1, fun h => ?_, fun h => ?_, ?_⟩
  · have h1 : ¬ |sub y0 y1| > 50 := not_lt.mpr h
    simp [onTouchendWith, hl' y0, hT y0, h1]
  · have h1 : |sub y0 y1| > 50 := by
      rw [abs_of_nonpos (by linarith)]
      linarith
    have h2 : ¬ sub y0 y1 > 0 := by linarith
    simp [onTouchendWith, hl' y0, hT y0, h1, h2]
  · exact hnext sub 500 430 (by rw [h]; norm_num)
  · have hrun : run [Event.touchstart 500, Event.touchend 430] s
        = onTouchendWith (fun p q => p - q) 430 (onTouchstart 500 s) := by
      simp only [run, step, Option.some_bind, onTouchend]
      cases onTouchendWith (fun p q => p - q) 430 (onTouchstart 500 s) <;> rfl
    rw [hrun]
    exact hnext _ 500 430 (by norm_num)

/-- C12, worked example: after startup with five scenes, a touch from 500 to 430
moves to scene 1; so does one from 500 to 449.5, of difference 50.5, while one
from 500 to 450, of difference 50, changes nothing. -/
theorem touch_threshold_witness :
    fiveStart.isLocked = false ∧ (500 : ℚ) - 430 > 50 ∧ (500 : ℚ) - 899 / 2 > 50 ∧
    |(500 : ℚ) - 450| ≤ 50 ∧
    (onTouchendWith (fun p q => p - q) 430 (onTouchstart 500 fiveStart)).map
      (fun s => s.currentSceneIndex) = some 1 ∧
    (onTouchendWith (fun p q => p - q) (899 / 2) (onTouchstart 500 fiveStart)).map
      (fun s => s.currentSceneIndex) = some 1 ∧
    onTouchendWith (fun p q => p - q) 450 (onTouchstart 500 fiveStart)
      = some (onTouchstart 500 fiveStart) :=
  have h50 : |(500 : ℚ) - 450| ≤ 50 := by
    rw [abs_le]
    constructor <;> norm_num
  ⟨rfl, by norm_num, by norm_num, h50, by
    rw [(touch_threshold (fun p q => p - q) fiveStart 500 430 rfl).2.1 (by norm_num)]
    decide, by
    rw [(touch_threshold (fun p q => p - q) fiveStart 500 (899 / 2) rfl).2.1 (by norm_num)]
    decide,
    (touch_threshold (fun p q => p - q) fiveStart 500 450 rfl).1 h50⟩

/-- C13: with N >= 1 scenes, after the initial updateScene() and after every
successful jumpToScene, nextScene or prevScene (made on a state whose index
names a scene), the body carries scene-strong if and only if the current index
is 0 or N-1. -/
theorem scene_strong_iff_first_or_last (scenes : List Scene) (strong : Bool)
    (hN : 1 ≤ scenes.length) :
    (∃ s0, init scenes strong = some s0 ∧ totalScenes s0 = (scenes.length : Int) ∧
      (s0.sceneStrong = true ↔
        s0.currentSceneIndex = 0 ∨ s0.currentSceneIndex = (scenes.length : Int) - 1)) ∧
    (∀ (s : State) (c : NavCall), InRange s → c.succeeds s = true →
      ∃ s', c.run s = some s' ∧ totalScenes s' = totalScenes s ∧
        (s'.sceneStrong = true ↔
          s'.currentSceneIndex = 0 ∨ s'.currentSceneIndex = totalScenes s - 1)) := by
  have key : ∀ (s : State) (i : Int),
      ((updated { s with currentSceneIndex := i }).sceneStrong = true ↔
        i = 0 ∨ i = totalScenes s - 1) := by
    intro s i
    simp [updated]
  constructor
  · have hne : scenes ≠ [] := by
      intro h
      simp [h] at hN
    refine ⟨_, init_eq scenes strong hne, ?_, ?_⟩
    · rw [updated_totalScenes]
      rfl
    · exact key (startState scenes strong) 0
  · intro s c hin hc
    obtain ⟨h0, h1⟩ := hin
    cases c with
    | jumpToScene i =>
      have hg : ¬ (i < 0 ∨ i ≥ totalScenes s) := by simpa [NavCall.succeeds] using hc
      exact ⟨_, jumpToScene_inRange i s (by omega) (by omega), by simp, key s i⟩
    | nextScene =>
      have hg : s.currentSceneIndex < totalScenes s - 1 := by simpa [NavCall.succeeds] using hc
      exact ⟨_, nextScene_move s h0 hg, by simp, key s (s.currentSceneIndex + 1)⟩
    | prevScene =>
      have hg : s.currentSceneIndex > 0 := by simpa [NavCall.succeeds] using hc
      exact ⟨_, prevScene_move s hg h1, by simp, key s (s.currentSceneIndex - 1)⟩

/-- C13, worked example: five scenes; after startup the flag is set, after
nextScene() from index 0 it is not, after jumpToScene(4) it is. -/
theorem scene_strong_iff_first_or_last_witness :
    1 ≤ fiveScenes.length ∧ InRange fiveStart ∧ fiveStart.sceneStrong = true ∧
    NavCall.nextScene.succeeds fiveStart = true ∧
    (NavCall.nextScene.run fiveStart).map (fun s => s.sceneStrong) = some false ∧
    ((NavCall.jumpToScene 4).run fiveStart).map (fun s => s.sceneStrong) = some true ∧
    ∃ s', NavCall.nextScene.run fiveStart = some s' ∧ totalScenes s' = totalScenes fiveStart ∧
      (s'.sceneStrong = true ↔
        s'.currentSceneIndex = 0 ∨ s'.currentSceneIndex = totalScenes fiveStart - 1) :=
  ⟨by decide, by decide, by decide, by decide, by decide, by decide,
    (scene_strong_iff_first_or_last fiveScenes false (by decide)).2 fiveStart NavCall.nextScene
      (by decide) (by decide)⟩

/-! ## The typewriter loop -/

/-- A run of `loop` while typing, before the text is complete. -/
theorem loopBody_typing (text : JSString) (k : Nat) (hk : k < text.length) :
    loopBody { text := text, isDeleting := false, charIndex := (k : Int) }
      = { shown := text.take k, delta := typeSpeed,
          vars := { text := text, isDeleting := false, charIndex := (k : Int) + 1 } } := by
  have h1 : ¬ ((k : Int) + 1 = (text.length : Int) + 1) := by omega
  simp [loopBody, substring0, h1]

/-- The run of `loop` that has the complete text to show. -/
theorem loopBody_full (text : JSString) :
    loopBody { text := text, isDeleting := false, charIndex := (text.length : Int) }
      = { shown := text, delta := pauseEnd,
          vars := { text := text, isDeleting := true, charIndex := (text.length : Int) } } := by
  simp [loopBody, substring0]

/-- A run of `loop` while deleting, with at least two code units left. -/
theorem loopBody_deleting (text : JSString) (k : Nat) (hk : 2 ≤ k) :
    loopBody { text := text, isDeleting := true, charIndex := (k : Int) }
      = { shown := text.take k, delta := deleteSpeed,
          vars := { text := text, isDeleting := true, charIndex := (k : Int) - 1 } } := by
  have h1 : ¬ ((k : Int) - 1 = 0) := by omega
  simp [loopBody, substring0, h1]

/-- The run of `loop` that finds one code unit left while deleting. -/
theorem loopBody_last (text : JSString) :
    loopBody { text := text, isDeleting := true, charIndex := 1 }
      = { shown := text.take 1, delta := pauseStart,
          vars := { text := text, isDeleting := false, charIndex := 0 } } := by
  simp [loopBody, substring0]

/-- The variables during the typing half of a period. -/
theorem loopVarsAt_typing (text : JSString) (k : Nat) (hk : k ≤ text.length) :
    loopVarsAt text k = { text := text, isDeleting := false, charIndex := (k : Int) } := by
  induction k with
  | zero => rfl
  | succ k ih =>
    rw [loopVarsAt, ih (by omega), loopBody_typing text k (by omega)]
    simp

/-- The variables during the deleting half of a period. -/
theorem loopVarsAt_deleting (text : JSString) (j : Nat) (hj : j < text.length) :
    loopVarsAt text (text.length + 1 + j)
      = { text := text, isDeleting := true, charIndex := ((text.length - j : Nat) : Int) } := by
  induction j with
  | zero =>
    show (loopBody (loopVarsAt text text.length)).vars = _
    rw [loopVarsAt_typing text text.length (le_refl _), loopBody_full]
    simp
  | succ j ih =>
    show (loopBody (loopVarsAt text (text.length + 1 + j))).vars = _
    rw [ih (by omega), loopBody_deleting text (text.length - j) (by omega)]
    have : ((text.length - j : Nat) : Int) - 1 = ((text.length - (j + 1) : Nat) : Int) := by omega
    simp [this]

/-- After `2 * length + 1` runs the variables are back at their start. -/
theorem loopVarsAt_period (text : JSString) (hL : 1 ≤ text.length) :
    loopVarsAt text (2 * text.length + 1) = loopStart text := by
  have h : 2 * text.length + 1 = (text.length + 1 + (text.length - 1)) + 1 := by omega
  rw [h]
  show (loopBody (loopVarsAt text (text.length + 1 + (text.length - 1)))).vars = _
  rw [loopVarsAt_deleting text (text.length - 1) (by omega)]
  have h1 : text.length - (text.length - 1) = 1 := by omega
  rw [h1]
  show (loopBody { text := text, isDeleting := true, charIndex := 1 }).vars = _
  rw [loopBody_last]
  rfl

/-- The variables repeat with period `2 * length + 1`. -/
theorem loopVarsAt_add_period (text : JSString) (hL : 1 ≤ text.length) (n : Nat) :
    loopVarsAt text (2 * text.length + 1 + n) = loopVarsAt text n := by
  induction n with
  | zero => exact loopVarsAt_period text hL
  | succ n ih =>
    show (loopBody (loopVarsAt text (2 * text.length + 1 + n))).vars = _
    rw [ih]
    rfl

/-- The variables at the start of every iteration: the text is the one the loop
started with, the index lies between 0 and the length, and it is at least 1
while deleting. -/
theorem loopVarsAt_bounds (text : JSString) (hL : 1 ≤ text.length) (n : Nat) :
    (loopVarsAt text n).text = text ∧ 0 ≤ (loopVarsAt text n).charIndex ∧
    (loopVarsAt text n).charIndex ≤ (text.length : Int) ∧
    ((loopVarsAt text n).isDeleting = true → 1 ≤ (loopVarsAt text n).charIndex) := by
  induction n with
  | zero =>
    refine ⟨rfl, ?_, ?_, ?_⟩
    · show (0 : Int) ≤ 0
      omega
    · show (0 : Int) ≤ (text.length : Int)
      omega
    · intro h
      cases h
  | succ n ih =>
    obtain ⟨h1, h2, h3, h4⟩ := ih
    show (loopBody (loopVarsAt text n)).vars.text = text ∧
      0 ≤ (loopBody (loopVarsAt text n)).vars.charIndex ∧
      (loopBody (loopVarsAt text n)).vars.charIndex ≤ (text.length : Int) ∧
      ((loopBody (loopVarsAt text n)).vars.isDeleting = true →
        1 ≤ (loopBody (loopVarsAt text n)).vars.charIndex)
    generalize loopVarsAt text n = v at h1 h2 h3 h4
    obtain ⟨t, d, c⟩ := v
    simp only at h1 h2 h3 h4
    subst h1
    cases d with
    | false =>
      by_cases hc : c + 1 = (t.length : Int) + 1
      · simp [loopBody, hc]
        omega
      · simp [loopBody, hc]
        omega
    | true =>
      have hc1 := h4 rfl
      by_cases hc : c - 1 = 0
      · simp [loopBody, hc]
      · simp [loopBody, hc]
        omega

/-- The element after `n + 1` runs of `loop`, the element staying in the document:
it shows what iteration `n` wrote and iteration `n + 1` is scheduled. -/
theorem fireLoop_iterate (content : JSString) (noCursor : Bool) (n : Nat) :
    (fireLoop true)^[n + 1]
        { textContent := [], noCursor := noCursor,
          pending := some (loopStart (trim content), 500) }
      = { textContent := shownAt (trim content) n, noCursor := noCursor,
          pending := some (loopVarsAt (trim content) (n + 1), deltaAt (trim content) n) } := by
  induction n with
  | zero => rfl
  | succ n ih =>
    rw [Function.iterate_succ_apply', ih]
    rfl

/-! ## Claims on the typewriter -/

/-- C14, at the failing input: the text "ab". Its iterations write "", "a", "ab",
"ab", "a", "" and schedule the next one after 50, 50, 2000, 30, 800, 50 ms.
The 2000 ms wait follows the first write of the full text, as claimed; the
800 ms wait follows the write of "a", not of the empty string, and the
iteration that writes the empty string waits 50 ms. -/
theorem pause_after_delete_shows_one_unit :
    (List.range 6).map (fun n => (shownAt [97, 98] n, deltaAt [97, 98] n))
      = [([], 50), ([97], 50), ([97, 98], 2000), ([97, 98], 30), ([97], 800), ([], 50)] ∧
    deltaAt [97, 98] 4 = pauseStart ∧ shownAt [97, 98] 4 ≠ [] ∧
    shownAt [97, 98] 5 = [] ∧ deltaAt [97, 98] 5 = typeSpeed ∧
    shownAt [97, 98] 0 = [] ∧ deltaAt [97, 98] 0 = typeSpeed := by
  decide

/-- C16: with the reduced-motion preference on, initTypewriter leaves the text of
the element exactly as it was (not trimmed, not cleared) and schedules no
timeout; no run of `loop` can follow, so the text stays the same whatever
timeouts the event loop fires later. -/
theorem reduced_motion_static (content : JSString) (noCursor : Bool) (later : List Bool) :
    ∃ tw, initTypewriter (some content) true noCursor = some tw ∧
      tw.textContent = content ∧ tw.pending = none ∧
      later.foldl (fun t attached => fireLoop attached t) tw = tw := by
  refine ⟨_, rfl, rfl, rfl, ?_⟩
  induction later with
  | nil => rfl
  | cons a l ih =>
    simp only [List.foldl_cons]
    exact ih

/-- C18: for every text whose trimmed form has length L >= 1 and every iteration n of
the loop, at the start of the iteration 0 <= charIndex <= L, and the string
the iteration writes, which is the text of the element afterwards, is the
prefix of the trimmed text of length charIndex. -/
theorem typewriter_index_in_bounds (content : JSString) (noCursor : Bool) (n : Nat)
    (hL : 1 ≤ (trim content).length) :
    0 ≤ (loopVarsAt (trim content) n).charIndex ∧
    (loopVarsAt (trim content) n).charIndex ≤ ((trim content).length : Int) ∧
    shownAt (trim content) n
      = (trim content).take (loopVarsAt (trim content) n).charIndex.toNat ∧
    shownAt (trim content) n <+: trim content ∧
    ∃ tw0, initTypewriter (some content) false noCursor = some tw0 ∧
      ((fireLoop true)^[n + 1] tw0).textContent = shownAt (trim content) n ∧
      ((fireLoop true)^[n + 1] tw0).pending
        = some (loopVarsAt (trim content) (n + 1), deltaAt (trim content) n) := by
  obtain ⟨h1, h2, h3, _⟩ := loopVarsAt_bounds (trim content) hL n
  have hshown : shownAt (trim content) n
      = (trim content).take (loopVarsAt (trim content) n).charIndex.toNat := by
    unfold shownAt
    generalize loopVarsAt (trim content) n = v at h1
    obtain ⟨t, d, c⟩ := v
    simp only at h1
    subst h1
    simp only [loopBody, substring0]
    split_ifs <;> rfl
  refine ⟨h2, h3, hshown, ?_, _, rfl, ?_, ?_⟩
  · rw [hshown]
    exact List.take_prefix _ _
  · rw [show (some (({ text := trim content, isDeleting := false, charIndex := 0 } : LoopVars), 500)
        : Option (LoopVars × Nat)) = some (loopStart (trim content), 500) from rfl,
      fireLoop_iterate]
  · rw [show (some (({ text := trim content, isDeleting := false, charIndex := 0 } : LoopVars), 500)
        : Option (LoopVars × Nat)) = some (loopStart (trim content), 500) from rfl,
      fireLoop_iterate]

/-- C18, worked example: the content " ab " (trimmed "ab"), iteration 3. -/
theorem typewriter_index_in_bounds_witness :
    1 ≤ (trim [32, 97, 98, 32]).length ∧
    (loopVarsAt (trim [32, 97, 98, 32]) 3).charIndex = 2 ∧
    0 ≤ (loopVarsAt (trim [32, 97, 98, 32]) 3).charIndex ∧
    (loopVarsAt (trim [32, 97, 98, 32]) 3).charIndex
      ≤ ((trim [32, 97, 98, 32]).length : Int) :=
  ⟨by decide, by decide,
    (typewriter_index_in_bounds [32, 97, 98, 32] false 3 (by decide)).1,
    (typewriter_index_in_bounds [32, 97, 98, 32] false 3 (by decide)).2.1⟩

/-- C19: for every text of length L >= 1 the variables (charIndex, isDeleting) of the
loop, started at (0, false), are back at (0, false) after exactly 2L+1
iterations and not earlier, and the iterations of one period write the
prefixes of lengths 0, 1, ..., L followed by those of lengths L, L-1, ..., 1. -/
theorem typewriter_period (text : JSString) (hL : 1 ≤ text.length) :
    loopVarsAt text (2 * text.length + 1) = loopStart text ∧
    (∀ n, 0 < n → n < 2 * text.length + 1 → loopVarsAt text n ≠ loopStart text) ∧
    (List.range (2 * text.length + 1)).map (shownAt text)
      = (List.range (text.length + 1)).map (fun k => text.take k)
        ++ (List.range text.length).map (fun j => text.take (text.length - j)) := by
  refine ⟨loopVarsAt_period text hL, ?_, ?_⟩
  · intro n h0 h1 heq
    by_cases hn : n ≤ text.length
    · rw [loopVarsAt_typing text n hn] at heq
      have : (n : Int) = 0 := congrArg LoopVars.charIndex heq
      omega
    · have hn' : n = text.length + 1 + (n - (text.length + 1)) := by omega
      rw [hn', loopVarsAt_deleting text _ (by omega)] at heq
      have := congrArg LoopVars.isDeleting heq
      cases this
  · have hsplit : 2 * text.length + 1 = (text.length + 1) + text.length := by omega
    rw [hsplit, List.range_add, List.map_append, List.map_map]
    congr 1
    · apply List.map_congr_left
      intro k hk
      have hk' : k ≤ text.length := by
        have := List.mem_range.mp hk
        omega
      unfold shownAt
      rw [loopVarsAt_typing text k hk']
      by_cases hlt : k < text.length
      · rw [loopBody_typing text k hlt]
      · have hke : k = text.length := by omega
        subst hke
        rw [loopBody_full]
        simp
    · apply List.map_congr_left
      intro j hj
      have hj' : j < text.length := List.mem_range.mp hj
      show shownAt text (text.length + 1 + j) = _
      unfold shownAt
      rw [loopVarsAt_deleting text j hj']
      by_cases h2 : 2 ≤ text.length - j
      · rw [loopBody_deleting text _ h2]
      · have h1 : text.length - j = 1 := by omega
        rw [h1]
        exact congrArg LoopResult.shown (loopBody_last text)

/-- C19, worked example: the text "ab" has period 5 and writes "", "a", "ab", "ab",
"a". -/
theorem typewriter_period_witness :
    1 ≤ ([97, 98] : JSString).length ∧
    loopVarsAt [97, 98] 5 = loopStart [97, 98] ∧
    (List.range 5).map (shownAt [97, 98]) = [[], [97], [97, 98], [97, 98], [97]] :=
  ⟨by decide, (typewriter_period [97, 98] (by decide)).1,
    ((typewriter_period [97, 98] (by decide)).2.2).trans (by decide)⟩

/-! ## Claims on the theme toggle and the cursor glow -/

/-- C15, as stated, fails: with the value "blue" stored under the key, the
attribute after initialisation is "blue", neither "dark" nor "light". -/
theorem stored_theme_copied_unchecked :
    (initTheme (some "blue")).dataTheme = some "blue" ∧
    (initTheme (some "blue")).dataTheme ≠ some "dark" ∧
    (initTheme (some "blue")).dataTheme ≠ some "light" := by
  decide

/-- C15 (amended): when the value stored at startup is absent, empty, "dark" or
"light", the attribute is "dark" or "light" after initialisation, and any
other stored string is copied to the attribute unchanged; startup does not
write the storage; whatever was stored, after every click the attribute is
"dark" or "light" and the stored value equals the attribute; absent storage
yields "dark". -/
theorem theme_dark_or_light (stored : Option String) (clicks : Nat) :
    (stored = none ∨ stored = some "" ∨ stored = some "dark" ∨ stored = some "light" →
      (initTheme stored).dataTheme = some "dark" ∨
      (initTheme stored).dataTheme = some "light") ∧
    (∀ v : String, stored = some v → v ≠ "" → (initTheme stored).dataTheme = some v) ∧
    (stored = none ∨ stored = some "" → (initTheme stored).dataTheme = some "dark") ∧
    (initTheme stored).stored = stored ∧
    ((themeAfter stored (clicks + 1)).dataTheme = some "dark" ∨
      (themeAfter stored (clicks + 1)).dataTheme = some "light") ∧
    (themeAfter stored (clicks + 1)).stored = (themeAfter stored (clicks + 1)).dataTheme ∧
    (initTheme none).dataTheme = some "dark" := by
  refine ⟨?_, ?_, ?_, rfl, ?_, rfl, rfl⟩
  · rintro (rfl | rfl | rfl | rfl) <;> decide
  · rintro v rfl hv
    simp [initTheme, hv]
  · rintro (rfl | rfl) <;> rfl
  · show (onThemeClick (themeAfter stored clicks)).dataTheme = some "dark" ∨
      (onThemeClick (themeAfter stored clicks)).dataTheme = some "light"
    unfold onThemeClick
    by_cases h : (themeAfter stored clicks).dataTheme = some "dark"
    · right
      simp [h]
    · left
      simp [h]

/-- C15 (amended), worked example: "light" stored, two clicks; "blue" stored. -/
theorem theme_dark_or_light_witness :
    ((some "light" : Option String) = none ∨ (some "light" : Option String) = some "" ∨
      (some "light" : Option String) = some "dark" ∨
      (some "light" : Option String) = some "light") ∧
    ((initTheme (some "light")).dataTheme = some "dark" ∨
      (initTheme (some "light")).dataTheme = some "light") ∧
    themeAfter (some "light") 2 = { dataTheme := some "light", stored := some "light" } ∧
    "blue" ≠ "" ∧ (initTheme (some "blue")).dataTheme = some "blue" :=
  ⟨by decide, (theme_dark_or_light (some "light") 1).1 (by decide), by decide, by decide,
    (theme_dark_or_light (some "blue") 0).2.1 "blue" rfl (by decide)⟩

/-- One turn of the cursor glow, the listener being installed: afterwards one
callback is queued exactly while `rafPending` is set, and then the turn was a
`mousemove` whose coordinates the variables hold. -/
theorem glowStep_inv (fmt : ℚ → String) (e : GlowEvent) (g : Glow) (p : Option (ℚ × ℚ))
    (h1 : g.queued = if g.rafPending then 1 else 0) :
    (glowStep fmt true e g).queued = (if (glowStep fmt true e g).rafPending then 1 else 0) ∧
    ((glowStep fmt true e g).queued = 1 →
      (match e with
       | GlowEvent.mousemove x y => some (x, y)
       | GlowEvent.frame => p)
        = some ((glowStep fmt true e g).mouseX, (glowStep fmt true e g).mouseY)) := by
  cases e with
  | mousemove x y =>
    cases hr : g.rafPending with
    | true =>
      rw [hr] at h1
      simp [glowStep, onMousemove, hr, h1]
    | false =>
      rw [hr] at h1
      simp [glowStep, onMousemove, hr, h1]
  | frame =>
    cases hr : g.rafPending with
    | true =>
      rw [hr] at h1
      simp [glowStep, h1, updateCursorGlow]
    | false =>
      rw [hr] at h1
      simp [glowStep, h1, hr]

theorem lastMove_cons (e : GlowEvent) (es : List GlowEvent) :
    lastMove (e :: es)
      = (match lastMove es with
         | some q => some q
         | none =>
           match e with
           | GlowEvent.mousemove x y => some (x, y)
           | GlowEvent.frame => none) := rfl

/-- The invariant along a trace, the listener being installed: `p` is the last
`mousemove` before the trace, if any. -/
theorem glowRun_inv (fmt : ℚ → String) (evs : List GlowEvent) (g : Glow) (p : Option (ℚ × ℚ))
    (h1 : g.queued = if g.rafPending then 1 else 0)
    (h2 : g.queued = 1 → p = some (g.mouseX, g.mouseY)) :
    (glowRun fmt true evs g).queued = (if (glowRun fmt true evs g).rafPending then 1 else 0) ∧
    ((glowRun fmt true evs g).queued = 1 →
      (match lastMove evs with
       | some q => some q
       | none => p)
        = some ((glowRun fmt true evs g).mouseX, (glowRun fmt true evs g).mouseY)) := by
  induction evs generalizing g p with
  | nil => exact ⟨h1, h2⟩
  | cons e es ih =>
    obtain ⟨k1, k2⟩ := glowStep_inv fmt e g p h1
    obtain ⟨m1, m2⟩ := ih (glowStep fmt true e g) _ k1 k2
    refine ⟨m1, fun hq => ?_⟩
    have m3 := m2 hq
    rw [lastMove_cons]
    show _ = some ((glowRun fmt true es (glowStep fmt true e g)).mouseX,
      (glowRun fmt true es (glowStep fmt true e g)).mouseY)
    rw [← m3]
    cases lastMove es with
    | some q => rfl
    | none =>
      cases e with
      | mousemove x y => rfl
      | frame => rfl

/-- Without the listener nothing is ever queued. -/
theorem glowRun_no_hover (fmt : ℚ → String) (evs : List GlowEvent) (g : Glow) (h : g.queued = 0) :
    glowRun fmt false evs g = g := by
  induction evs with
  | nil => rfl
  | cons e es ih =>
    have hstep : glowStep fmt false e g = g := by
      cases e with
      | mousemove x y => rfl
      | frame =>
        simp only [glowStep, h, Function.iterate_zero, id_eq]
        cases g
        simp only at h
        subst h
        rfl
    show glowRun fmt false es (glowStep fmt false e g) = g
    rw [hstep]
    exact ih

/-- C17: for every sequence of mousemove events and animation frames, at most one
updateCursorGlow callback is queued, rafPending is true exactly when one is
queued, and when one is queued the next frame runs it, writes to --mx and --my
the coordinates of the most recent mousemove, each converted to a string by the
template literal and followed by px, and leaves nothing queued. This holds
whatever the conversion of a number to a string is. -/
theorem glow_single_slot (fmt : ℚ → String) (hover : Bool) (evs : List GlowEvent) :
    (glowRun fmt hover evs glowStart).queued ≤ 1 ∧
    ((glowRun fmt hover evs glowStart).rafPending = true ↔
      (glowRun fmt hover evs glowStart).queued = 1) ∧
    ((glowRun fmt hover evs glowStart).queued = 1 →
      ∃ x y, lastMove evs = some (x, y) ∧
        (glowStep fmt hover GlowEvent.frame (glowRun fmt hover evs glowStart)).mx
          = some (fmt x ++ "px") ∧
        (glowStep fmt hover GlowEvent.frame (glowRun fmt hover evs glowStart)).my
          = some (fmt y ++ "px") ∧
        (glowStep fmt hover GlowEvent.frame (glowRun fmt hover evs glowStart)).queued = 0 ∧
        (glowStep fmt hover GlowEvent.frame (glowRun fmt hover evs glowStart)).rafPending = false) := by
  cases hover with
  | false =>
    rw [glowRun_no_hover fmt evs glowStart rfl]
    refine ⟨by decide, by decide, fun h => ?_⟩
    cases h
  | true =>
    obtain ⟨h1, h2⟩ := glowRun_inv fmt evs glowStart none rfl (fun h => by cases h)
    generalize glowRun fmt true evs glowStart = g at h1 h2
    refine ⟨?_, ?_, fun hq => ?_⟩
    · rw [h1]
      split_ifs <;> omega
    · rw [h1]
      cases g.rafPending <;> simp
    · have h3 := h2 hq
      cases hlm : lastMove evs with
      | none =>
        rw [hlm] at h3
        cases h3
      | some q =>
        rw [hlm] at h3
        obtain ⟨x, y⟩ := q
        have hx : g.mouseX = x := by
          have := congrArg (fun o => o.map Prod.fst) h3
          simpa using this.symm
        have hy : g.mouseY = y := by
          have := congrArg (fun o => o.map Prod.snd) h3
          simpa using this.symm
        refine ⟨x, y, rfl, ?_, ?_, ?_, ?_⟩ <;>
          simp [glowStep, hq, updateCursorGlow, hx, hy]

/-- C17, worked example: two moves before the frame; the callback writes the
coordinates of the second one. -/
theorem glow_single_slot_witness :
    (glowRun wholeDigits true [GlowEvent.mousemove 1 2, GlowEvent.mousemove 3 4]
      glowStart).queued = 1 ∧
    ∃ x y, lastMove [GlowEvent.mousemove 1 2, GlowEvent.mousemove 3 4] = some (x, y) ∧
      (glowStep wholeDigits true GlowEvent.frame
        (glowRun wholeDigits true [GlowEvent.mousemove 1 2, GlowEvent.mousemove 3 4]
          glowStart)).mx = some (wholeDigits x ++ "px") ∧
      (glowStep wholeDigits true GlowEvent.frame
        (glowRun wholeDigits true [GlowEvent.mousemove 1 2, GlowEvent.mousemove 3 4]
          glowStart)).my = some (wholeDigits y ++ "px") ∧
      (glowStep wholeDigits true GlowEvent.frame
        (glowRun wholeDigits true [GlowEvent.mousemove 1 2, GlowEvent.mousemove 3 4]
          glowStart)).queued = 0 ∧
      (glowStep wholeDigits true GlowEvent.frame
        (glowRun wholeDigits true [GlowEvent.mousemove 1 2, GlowEvent.mousemove 3 4]
          glowStart)).rafPending = false :=
  ⟨by decide,
    (glow_single_slot wholeDigits true
      [GlowEvent.mousemove 1 2, GlowEvent.mousemove 3 4]).2.2 (by decide)⟩

/-! ## The `just-entered` marker -/

/-- The scenes right after `updateScene`: the target is the only active one and
none carries the marker. -/
theorem updated_scene (x : State) (k : Nat) (sc : Scene)
    (h : (updated x).scenes[k]? = some sc) :
    (sc.active = true ↔ k = x.currentSceneIndex.toNat) ∧ sc.justEntered = false := by
  simp only [updated, List.getElem?_set, List.length_map, List.getElem?_map] at h
  by_cases hk : x.currentSceneIndex.toNat = k
  · rw [if_pos hk] at h
    split_ifs at h
    cases h
    exact ⟨⟨fun _ => hk.symm, fun _ => rfl⟩, rfl⟩
  · rw [if_neg hk] at h
    cases hx : x.scenes[k]? with
    | none =>
      rw [hx] at h
      cases h
    | some y =>
      rw [hx] at h
      cases h
      exact ⟨⟨fun hf => (by cases hf), fun hf => absurd hf.symm hk⟩, rfl⟩

/-- The marker invariant holds right after a successful `updateScene`, with or
without `lockScroll`. -/
theorem markInv_updated (s : State) (i : Int) (h : MarkInv s) (hi0 : 0 ≤ i)
    (hi1 : i < totalScenes s) :
    MarkInv (updated { s with currentSceneIndex := i }) ∧
    MarkInv (lockScroll (updated { s with currentSceneIndex := i })) := by
  obtain ⟨_, ht, _, _⟩ := h
  have hin : InRange (updated { s with currentSceneIndex := i }) :=
    ⟨hi0, by rw [updated_totalScenes]; exact hi1⟩
  have hsc : ∀ k sc, (updated { s with currentSceneIndex := i }).scenes[k]? = some sc →
      (sc.active = true ↔ k = i.toNat) ∧ sc.justEntered = false :=
    fun k sc hk => updated_scene { s with currentSceneIndex := i } k sc hk
  have htm : ∀ p ∈ (updated { s with currentSceneIndex := i }).timers,
      ∀ t, p.2 ≠ Callback.addJustEntered t := by
    intro p hp t
    simp only [updated, List.mem_append, List.mem_singleton] at hp
    rcases hp with hp | hp
    · exact ht p hp t
    · rw [hp]
      simp
  refine ⟨⟨hin, htm, fun k sc hk => (hsc k sc hk).1, fun k sc hk hj => ?_⟩,
    ⟨hin, ?_, fun k sc hk => (hsc k sc hk).1, fun k sc hk hj => ?_⟩⟩
  · rw [(hsc k sc hk).2] at hj
    cases hj
  · intro p hp t
    simp only [lockScroll, List.mem_append, List.mem_singleton] at hp
    rcases hp with hp | hp
    · exact htm p hp t
    · rw [hp]
      simp
  · rw [(hsc k sc hk).2] at hj
    cases hj

/-- A callback that sets or clears the marker of the scene at the index keeps the
marker invariant; one that clears the marker of any scene does too. -/
theorem markInv_setJustEntered (s : State) (t : Nat) (b : Bool) (h : MarkInv s)
    (hb : b = true → t = s.currentSceneIndex.toNat) :
    MarkInv { s with scenes := setJustEntered t b s.scenes } := by
  obtain ⟨hin, ht, ha, hm⟩ := h
  have hget : ∀ k sc, (setJustEntered t b s.scenes)[k]? = some sc →
      ∃ sc0, s.scenes[k]? = some sc0 ∧ sc.active = sc0.active ∧
        (sc.justEntered = true → sc0.justEntered = true ∨ (t = k ∧ b = true)) := by
    intro k sc hk
    simp only [setJustEntered, List.getElem?_modify] at hk
    cases hx : s.scenes[k]? with
    | none =>
      rw [hx] at hk
      cases hk
    | some sc0 =>
      rw [hx] at hk
      simp only [Option.map_eq_map, Option.map_some', Option.some.injEq] at hk
      by_cases htk : t = k
      · rw [if_pos htk] at hk
        subst hk
        exact ⟨sc0, rfl, rfl, fun hj => Or.inr ⟨htk, hj⟩⟩
      · rw [if_neg htk] at hk
        subst hk
        exact ⟨sc0, rfl, rfl, fun hj => Or.inl hj⟩
  refine ⟨⟨hin.1, ?_⟩, ht, fun k sc hk => ?_, fun k sc hk hj => ?_⟩
  · have : totalScenes { s with scenes := setJustEntered t b s.scenes } = totalScenes s := by
      simp [totalScenes, setJustEntered]
    rw [this]
    exact hin.2
  · obtain ⟨sc0, h0, h1, _⟩ := hget k sc hk
    rw [h1]
    exact ha k sc0 h0
  · obtain ⟨sc0, h0, _, h2⟩ := hget k sc hk
    rcases h2 hj with h3 | ⟨h3, h4⟩
    · exact hm k sc0 h0 h3
    · rw [← h3]
      exact hb h4

/-- An animation frame whose callbacks all belong to the current scene keeps the
marker invariant. -/
theorem markInv_frames (cs : List Callback) (s : State) (h : MarkInv s)
    (hcs : ∀ c ∈ cs, c = Callback.addJustEntered s.currentSceneIndex.toNat) :
    MarkInv (cs.foldl (fun st c => runCallback c st) s) ∧
    (cs.foldl (fun st c => runCallback c st) s).currentSceneIndex = s.currentSceneIndex := by
  induction cs generalizing s with
  | nil => exact ⟨h, rfl⟩
  | cons c cs ih =>
    simp only [List.foldl_cons]
    have hc := hcs c (List.mem_cons_self _ _)
    have h1 : MarkInv (runCallback c s) := by
      rw [hc]
      exact markInv_setJustEntered s _ true h (fun _ => rfl)
    have h2 : (runCallback c s).currentSceneIndex = s.currentSceneIndex := by
      rw [hc]
      rfl
    obtain ⟨k1, k2⟩ := ih (runCallback c s) h1 (fun c' hc' => by
      rw [h2]
      exact hcs c' (List.mem_cons_of_mem _ hc'))
    exact ⟨k1, k2.trans h2⟩

/-- One turn of the event loop keeps the marker invariant, provided the pending
animation-frame callbacks all belong to the current scene. -/
theorem step_markInv (e : Event) (s : State) (h : MarkInv s)
    (hf : framesCurrent s = true) :
    ∃ s', step e s = some s' ∧ MarkInv s' := by
  have hin := h.1
  have nav : ∀ r : Option State,
      (r = some s ∨ (s.isLocked = false ∧ (r = nextScene s ∨ r = prevScene s)) ∨
        ∃ i, r = jumpToScene i s) → ∃ s', r = some s' ∧ MarkInv s' := by
    intro r hr
    rcases hr with rfl | ⟨_, rfl | rfl⟩ | ⟨i, rfl⟩
    · exact ⟨s, rfl, h⟩
    · by_cases hg : s.currentSceneIndex < totalScenes s - 1
      · exact ⟨_, nextScene_move s hin.1 hg,
          (markInv_updated s _ h (by have := hin.1; omega) (by omega)).2⟩
      · exact ⟨s, nextScene_stay s hg, h⟩
    · by_cases hg : s.currentSceneIndex > 0
      · exact ⟨_, prevScene_move s hg hin.2,
          (markInv_updated s _ h (by omega) (by have := hin.2; omega)).2⟩
      · exact ⟨s, prevScene_stay s hg, h⟩
    · by_cases hg : i < 0 ∨ i ≥ totalScenes s
      · exact ⟨s, jumpToScene_outOfRange i s hg, h⟩
      · exact ⟨_, jumpToScene_inRange i s (by omega) (by omega),
          (markInv_updated s i h (by omega) (by omega)).1⟩
  cases e with
  | wheel d => exact nav _ (listener_outcome _ s trivial)
  | keydown code => exact nav _ (listener_outcome _ s trivial)
  | touchend y => exact nav _ (listener_outcome _ s trivial)
  | dotClick i => exact nav _ (listener_outcome _ s trivial)
  | startClick => exact nav _ (listener_outcome _ s trivial)
  | touchstart y =>
    obtain ⟨a, b, c, d⟩ := h
    exact ⟨_, rfl, a, b, c, d⟩
  | wait ms =>
    obtain ⟨a, b, c, d⟩ := h
    exact ⟨_, rfl, a, b, c, d⟩
  | frame =>
    have h0 : MarkInv { s with frames := [] } := by
      obtain ⟨a, b, c, d⟩ := h
      exact ⟨a, b, c, d⟩
    have hcs : ∀ c ∈ s.frames, c = Callback.addJustEntered s.currentSceneIndex.toNat := by
      intro c hc
      have := List.all_eq_true.mp hf c hc
      simpa using this
    exact ⟨_, rfl, (markInv_frames s.frames { s with frames := [] } h0 hcs).1⟩
  | timer k =>
    rw [step_timer]
    cases hk : s.timers.get? k with
    | none => exact ⟨s, rfl, h⟩
    | some x =>
      obtain ⟨due, cb⟩ := x
      by_cases hdue : due ≤ s.now
      · simp only [if_pos hdue]
        have hmem : (due, cb) ∈ s.timers := List.get?_mem hk
        have h0 : MarkInv { s with timers := s.timers.eraseIdx k } := by
          obtain ⟨a, b, c, d⟩ := h
          exact ⟨a, fun p hp t => b p (List.mem_of_mem_eraseIdx hp) t, c, d⟩
        refine ⟨_, rfl, ?_⟩
        cases cb with
        | addJustEntered t => exact absurd rfl (h.2.1 _ hmem t)
        | removeJustEntered t =>
          exact markInv_setJustEntered _ t false h0 (fun hb => by cases hb)
        | unlock =>
          obtain ⟨a, b, c, d⟩ := h0
          exact ⟨a, b, c, d⟩
      · simp only [if_neg hdue]
        exact ⟨s, rfl, h⟩

/-- A trace along which no animation-frame callback of an earlier scene is
pending returns and keeps the marker invariant. -/
theorem run_markInv (evs : List Event) (s : State) (h : MarkInv s)
    (hq : noStaleFrames s evs = true) :
    ∃ s', run evs s = some s' ∧ MarkInv s' := by
  induction evs generalizing s with
  | nil => exact ⟨s, rfl, h⟩
  | cons e es ih =>
    simp only [noStaleFrames, Bool.and_eq_true] at hq
    obtain ⟨s1, h1, h2⟩ := step_markInv e s h hq.1
    rw [h1] at hq
    obtain ⟨s2, h3, h4⟩ := ih s1 h2 hq.2
    exact ⟨s2, by simp [run, h1, h3], h4⟩

/-- The state after startup satisfies the marker invariant. -/
theorem init_markInv (scenes : List Scene) (strong : Bool) (s0 : State)
    (h : init scenes strong = some s0) : MarkInv s0 := by
  have hne : scenes ≠ [] := by
    intro hnil
    subst hnil
    simp [init, updateScene, startState, sceneAt] at h
  rw [init_eq scenes strong hne] at h
  cases h
  have hpos := List.length_pos.mpr hne
  have hsc : ∀ k sc, (updated (startState scenes strong)).scenes[k]? = some sc →
      (sc.active = true ↔ k = (startState scenes strong).currentSceneIndex.toNat) ∧
        sc.justEntered = false :=
    fun k sc hk => updated_scene (startState scenes strong) k sc hk
  refine ⟨⟨?_, ?_⟩, ?_, fun k sc hk => (hsc k sc hk).1, fun k sc hk hj => ?_⟩
  · show (0 : Int) ≤ 0
    omega
  · rw [updated_totalScenes]
    show (0 : Int) < (scenes.length : Int)
    omega
  · intro p hp t
    simp only [updated, startState, List.nil_append, List.mem_singleton] at hp
    rw [hp]
    simp
  · rw [(hsc k sc hk).2] at hj
    cases hj

/-! ## Claim on the `just-entered` marker -/

/-- C20, as stated, fails: five scenes. Two clicks on dots (scenes 2 and 3) reach
the engine between two animation frames; the frame then runs the callback of
the first click and scene 2 carries just-entered while scene 3 is the active
one. The same happens to scene 0 when ArrowDown arrives before the first
frame. -/
theorem stale_frame_marks_inactive_scene :
    ((init fiveScenes false).bind
        (run [Event.frame, Event.dotClick 2, Event.dotClick 3, Event.frame])).map
      (fun s => (s.currentSceneIndex, activeScenes s, markedScenes s))
      = some (3, [3], [2, 3]) ∧
    ((init fiveScenes false).bind (run [Event.keydown "ArrowDown", Event.frame])).map
      (fun s => (s.currentSceneIndex, activeScenes s, markedScenes s))
      = some (1, [1], [0, 1]) := by
  decide

/-- C20 (amended): along every trace of events from startup during which every
pending animation-frame callback belongs to the current scene (none scheduled
by the updateScene of an earlier scene is still waiting), the trace returns and
any scene carrying just-entered is the scene at currentSceneIndex, which is
active. -/
theorem just_entered_only_on_active (scenes : List Scene) (strong : Bool) (s0 : State)
    (evs : List Event) (hinit : init scenes strong = some s0)
    (hq : noStaleFrames s0 evs = true) :
    ∃ s, run evs s0 = some s ∧
      (∀ k sc, s.scenes.get? k = some sc → sc.justEntered = true →
        (k : Int) = s.currentSceneIndex ∧ sc.active = true) ∧
      ∀ k, k ∈ markedScenes s → k ∈ activeScenes s := by
  obtain ⟨s, h1, hin, _, ha, hm⟩ := run_markInv evs s0 (init_markInv scenes strong s0 hinit) hq
  have key : ∀ k sc, s.scenes.get? k = some sc → sc.justEntered = true →
      (k : Int) = s.currentSceneIndex ∧ sc.active = true := by
    intro k sc hk hj
    rw [List.get?_eq_getElem?] at hk
    have hkt := hm k sc hk hj
    refine ⟨?_, (ha k sc hk).mpr hkt⟩
    have := hin.1
    omega
  refine ⟨s, h1, key, fun k hk => ?_⟩
  simp only [markedScenes, List.mem_filter, List.mem_range, decide_eq_true_eq] at hk
  obtain ⟨hlt, hj⟩ := hk
  cases hsc : s.scenes.get? k with
  | none =>
    rw [hsc] at hj
    cases hj
  | some sc =>
    rw [hsc] at hj
    have hj' : sc.justEntered = true := by simpa using hj
    have hact := (key k sc hsc hj').2
    simp only [activeScenes, List.mem_filter, List.mem_range, decide_eq_true_eq]
    exact ⟨hlt, by rw [hsc]; simp [hact]⟩

/-- C20 (amended), worked example: five scenes; frame, click on dot 2, frame, the
800 ms timeout of the first scene, click on dot 3, frame. -/
theorem just_entered_only_on_active_witness :
    init fiveScenes false = some fiveStart ∧
    noStaleFrames fiveStart [Event.frame, Event.dotClick 2, Event.frame, Event.wait 800,
      Event.timer 0, Event.dotClick 3, Event.frame] = true ∧
    ∃ s, run [Event.frame, Event.dotClick 2, Event.frame, Event.wait 800,
        Event.timer 0, Event.dotClick 3, Event.frame] fiveStart = some s ∧
      (∀ k sc, s.scenes.get? k = some sc → sc.justEntered = true →
        (k : Int) = s.currentSceneIndex ∧ sc.active = true) ∧
      ∀ k, k ∈ markedScenes s → k ∈ activeScenes s :=
  ⟨by decide, by decide,
    just_entered_only_on_active fiveScenes false fiveStart _ (by decide) (by decide)⟩

end App
